import Mathlib

/-!
stack-music: URL classification, batch aggregation, duration formatting, token
cache, search sanitization and download streaming.

A shallow embedding of `music-download-api/main.go`.

A Go `string` is modelled as the list of its characters (`Str`).  Every
separator the program searches for is ASCII, so cutting a string by character
agrees with cutting its UTF-8 bytes.
-/

namespace StackMusic

/-- A Go string: the list of its characters. -/
abbrev Str := List Char

instance instDecidableEqExcept {ε α : Type} [DecidableEq ε] [DecidableEq α] :
    DecidableEq (Except ε α) := fun a b =>
  match a, b with
  | .ok x, .ok y => if h : x = y then isTrue (by rw [h]) else isFalse (by intro e; cases e; exact h rfl)
  | .error x, .error y =>
    if h : x = y then isTrue (by rw [h]) else isFalse (by intro e; cases e; exact h rfl)
  | .ok _, .error _ => isFalse (by intro e; cases e)
  | .error _, .ok _ => isFalse (by intro e; cases e)

/-! ## The parts of package `strings` used by the program -/

/-- Go `strings.Cut(s, sep)`: the text before and after the first occurrence of
`sep` in `s`, or `none` when `sep` does not occur (`strings.Index(s, sep) < 0`). -/
def Cut (sep : Str) : Str → Option (Str × Str)
  | [] => if sep = [] then some ([], []) else none
  | c :: cs =>
    if sep.isPrefixOf (c :: cs) then some ([], (c :: cs).drop sep.length)
    else
      match Cut sep cs with
      | none => none
      | some (a, b) => some (c :: a, b)

/-- Go `strings.Contains(s, substr)`, that is `strings.Index(s, substr) >= 0`. -/
def Contains (s substr : Str) : Bool := (Cut substr s).isSome

/-- The loop of Go `strings.genSplit`: cut at the first occurrence of `sep`, keep
the text before it, continue with the text after it; the first argument bounds
the number of cuts (Go uses `strings.Count(s, sep)`). -/
def splitLoop (sep : Str) : Nat → Str → List Str
  | 0, s => [s]
  | n + 1, s =>
    match Cut sep s with
    | none => [s]
    | some (a, b) => a :: splitLoop sep n b

/-- Go `strings.Split(s, sep)`.  With an empty separator Go explodes the string
into its characters; otherwise it runs the cut loop, for which `s.length` cuts
always suffice. -/
def Split (s sep : Str) : List Str :=
  if sep = [] then s.map (fun c => [c]) else splitLoop sep s.length s

/-- Go `strings.HasPrefix`. -/
def HasPrefix (s pre : Str) : Bool := pre.isPrefixOf s

/-- Go `strings.HasSuffix`. -/
def HasSuffix (s suf : Str) : Bool := suf.isSuffixOf s

/-- Go `strings.TrimPrefix`. -/
def TrimPrefix (s pre : Str) : Str := if HasPrefix s pre then s.drop pre.length else s

/-- Go `strings.TrimSuffix`. -/
def TrimSuffix (s suf : Str) : Str :=
  if HasSuffix s suf then s.take (s.length - suf.length) else s

/-! ## `extractSpotifyID` -/

/-- The errors the two extractors return. -/
inductive ExtractErr where
  /-- `invalid Spotify URL` -/
  | invalidSpotifyURL
  /-- `could not extract Spotify ID and type` -/
  | noSpotifyID
  /-- the error of `url.Parse` -/
  | urlParse
  /-- `could not extract playlist ID` -/
  | noPlaylistID
  /-- `could not extract video ID` -/
  | noVideoID
  deriving DecidableEq, Repr

/-- The test `part == "track" || part == "playlist" || part == "artist" || part == "album"`. -/
def isSpotifyKind (part : Str) : Bool :=
  part == "track".toList || part == "playlist".toList || part == "artist".toList
    || part == "album".toList

/-- The text of a segment before its first `?`: `strings.Split(seg, "?")[0]`. -/
def stripQuery (seg : Str) : Str := (Split seg "?".toList).headD []

/-- The `for i, part := range parts` loop of `extractSpotifyID`, run on the
segments from position `i` on: it stops (`break`) at the first segment that is
a kind token and yields `(itemType, itemID)`; both stay empty when the loop
runs to the end. -/
def scanParts : List Str → Str × Str
  | [] => ([], [])
  | part :: rest =>
    if isSpotifyKind part then
      (part,
        match rest with
        | [] => []
        | next :: _ => stripQuery next)
    else scanParts rest

/-- Embedding of `extractSpotifyID`. -/
def extractSpotifyID (urlStr : Str) : Except ExtractErr (Str × Str) :=
  let parts := Split urlStr "/".toList
  if parts.length < 2 then .error .invalidSpotifyURL
  else
    let r := scanParts parts
    if r.1 = [] ∨ r.2 = [] then .error .noSpotifyID
    else .ok (r.1, r.2)

/-! ## The parts of package `net/url` used by the program

`extractYouTubeID` calls `url.Parse(urlStr)` and then `u.Query().Get(key)`.
`extractYouTubeID` below takes that pair of library calls as a parameter;
`urlParse` is a model of the library functions, used to evaluate the program on
concrete inputs. -/

/-- The character `c` lies between `lo` and `hi` (both included). -/
def between (lo hi c : Char) : Bool := decide (lo.toNat ≤ c.toNat) && decide (c.toNat ≤ hi.toNat)

/-- Go `url.ishex`. -/
def ishex (c : Char) : Bool := between '0' '9' c || between 'a' 'f' c || between 'A' 'F' c

/-- Go `url.unhex`. -/
def unhex (c : Char) : Nat :=
  if between '0' '9' c then c.toNat - 48
  else if between 'a' 'f' c then c.toNat - 97 + 10
  else if between 'A' 'F' c then c.toNat - 65 + 10
  else 0

/-- The modes of `url.unescape` that `url.Parse` and `url.ParseQuery` use. -/
inductive Encoding where
  | encodePath
  | encodeHost
  | encodeZone
  | encodeUserPassword
  | encodeQueryComponent
  | encodeFragment
  deriving DecidableEq, Repr

/-- Go `url.shouldEscape(c, encodeHost)`: letters, digits, the sub-delimiters the
host may hold, and `- _ . ~` need no escape; everything else does. -/
def shouldEscapeHost (c : Char) : Bool :=
  if between 'a' 'z' c || between 'A' 'Z' c || between '0' '9' c then false
  else if c ∈ "!$&()*+,;=:[]<>".toList || c == Char.ofNat 39 || c == Char.ofNat 34 then false
  else if c ∈ "-_.~".toList then false
  else true

/-- Go `url.unescape(s, mode)`: `none` for an error.  A `%` must be followed by two
hex digits; in a host only non-ASCII bytes and `%25` may be escaped; in a zone an
escape may only produce `%`, a space or a byte a host may hold; an unescaped
ASCII byte of a host or zone must be one a host may hold.  `+` becomes a space in
a query component. -/
def unescape (mode : Encoding) : Str → Option Str
  | [] => some []
  | '%' :: h :: l :: rest =>
    if !(ishex h && ishex l) then none
    else if mode = .encodeHost ∧ unhex h < 8 ∧ ¬ (h = '2' ∧ l = '5') then none
    else if mode = .encodeZone ∧ ¬ (h = '2' ∧ l = '5') ∧ 16 * unhex h + unhex l ≠ 32
        ∧ shouldEscapeHost (Char.ofNat (16 * unhex h + unhex l)) = true then none
    else (unescape mode rest).map (fun t => Char.ofNat (16 * unhex h + unhex l) :: t)
  | c :: rest =>
    if c = '%' then none
    else if c = '+' then
      (unescape mode rest).map (fun t => (if mode = .encodeQueryComponent then ' ' else '+') :: t)
    else if (mode = .encodeHost ∨ mode = .encodeZone) ∧ c.toNat < 128
        ∧ shouldEscapeHost c = true then none
    else (unescape mode rest).map (fun t => c :: t)

/-- Go `url.getScheme`, the loop from byte `i` on: `none` is the error
`missing protocol scheme`, otherwise the scheme and the rest. -/
def getSchemeLoop (rawURL : Str) : Nat → Str → Option (Str × Str)
  | _, [] => some ([], rawURL)
  | i, c :: cs =>
    if between 'a' 'z' c || between 'A' 'Z' c then getSchemeLoop rawURL (i + 1) cs
    else if between '0' '9' c || c == '+' || c == '-' || c == '.' then
      if i = 0 then some ([], rawURL) else getSchemeLoop rawURL (i + 1) cs
    else if c == ':' then
      if i = 0 then none else some (rawURL.take i, cs)
    else some ([], rawURL)

/-- Go `url.getScheme`. -/
def getScheme (rawURL : Str) : Option (Str × Str) := getSchemeLoop rawURL 0 rawURL

/-- The text before and after the last occurrence of the character `c`
(`strings.LastIndex`), or `none` when `c` does not occur. -/
def cutLast (c : Char) (s : Str) : Option (Str × Str) :=
  match Cut [c] s.reverse with
  | none => none
  | some (a, b) => some (b.reverse, a.reverse)

/-- Go `url.validOptionalPort`. -/
def validOptionalPort : Str → Bool
  | [] => true
  | c :: ds => c == ':' && ds.all (fun b => between '0' '9' b)

/-- Go `url.validUserinfo`. -/
def validUserinfo (s : Str) : Bool :=
  s.all (fun r => between 'A' 'Z' r || between 'a' 'z' r || between '0' '9' r
    || r ∈ "-._:~!$&()*+,;=%@".toList || r == Char.ofNat 39)

/-- Go `url.parseHost`, as a check: `true` when the host is accepted. -/
def parseHostOk (host : Str) : Bool :=
  if HasPrefix host "[".toList then
    match cutLast ']' host with
    | none => false
    | some (inner, colonPort) =>
      if !validOptionalPort colonPort then false
      else
        match Cut "%25".toList inner with
        | some (h1, z) =>
          (unescape .encodeHost h1).isSome && (unescape .encodeZone ("%25".toList ++ z)).isSome
            && (unescape .encodeHost (']' :: colonPort)).isSome
        | none => (unescape .encodeHost host).isSome
  else
    match cutLast ':' host with
    | some (_, port) =>
      if !validOptionalPort (':' :: port) then false else (unescape .encodeHost host).isSome
    | none => (unescape .encodeHost host).isSome

/-- Go `url.parseAuthority`, as a check: `true` when the authority is accepted. -/
def parseAuthorityOk (authority : Str) : Bool :=
  match cutLast '@' authority with
  | none => parseHostOk authority
  | some (userinfo, host) =>
    if !parseHostOk host then false
    else if !validUserinfo userinfo then false
    else
      match Cut ":".toList userinfo with
      | none => (unescape .encodeUserPassword userinfo).isSome
      | some (username, password) =>
        (unescape .encodeUserPassword username).isSome
          && (unescape .encodeUserPassword password).isSome

/-- The tail of Go `url.parse`, after scheme and query are split off: the checks
on the rest (rootless path, authority, path escapes). -/
def parseRestOk (scheme rest : Str) : Bool :=
  if !HasPrefix rest "/".toList ∧ scheme ≠ [] then true
  else if !HasPrefix rest "/".toList
      ∧ Contains ((Split rest "/".toList).headD []) ":".toList then false
  else if (scheme ≠ [] ∨ !HasPrefix rest "///".toList) ∧ HasPrefix rest "//".toList then
    match Cut "/".toList (rest.drop 2) with
    | none => parseAuthorityOk (rest.drop 2) && (unescape .encodePath []).isSome
    | some (authority, path) =>
      parseAuthorityOk authority && (unescape .encodePath ('/' :: path)).isSome
  else (unescape .encodePath rest).isSome

/-- Go `url.parse(rawURL, false)`, reduced to what the program reads: `none` for
an error, otherwise the `RawQuery` of the parsed URL. -/
def parseRawQuery (rawURL : Str) : Option Str :=
  if rawURL.any (fun b => decide (b.toNat < 32) || decide (b.toNat = 127)) then none
  else if rawURL = "*".toList then some []
  else
    match getScheme rawURL with
    | none => none
    | some (scheme, rest0) =>
      let split : Str × Str :=
        if HasSuffix rest0 "?".toList ∧ rest0.count '?' = 1 then (rest0.dropLast, [])
        else
          match Cut "?".toList rest0 with
          | none => (rest0, [])
          | some (a, b) => (a, b)
      if parseRestOk scheme split.1 then some split.2 else none

/-- One `key=value` piece of a query in Go `url.parseQuery`: dropped when it is
empty, holds a `;`, or has a bad escape. -/
def parseQueryPiece (piece : Str) : Option (Str × Str) :=
  if Contains piece ";".toList then none
  else if piece = [] then none
  else
    let kv : Str × Str :=
      match Cut "=".toList piece with
      | none => (piece, [])
      | some (k, v) => (k, v)
    match unescape .encodeQueryComponent kv.1, unescape .encodeQueryComponent kv.2 with
    | some k, some v => some (k, v)
    | _, _ => none

/-- Go `u.Query().Get(key)` for a URL with the given `RawQuery`: the first value
recorded for `key` among the `&`-separated pieces, or the empty string. -/
def queryGet (rawQuery key : Str) : Str :=
  match ((Split rawQuery "&".toList).filterMap parseQueryPiece).find? (fun kv => kv.1 == key) with
  | none => []
  | some kv => kv.2

/-- Go `url.Parse(rawURL)` followed by `u.Query().Get(key)`: `none` when
`url.Parse` returns an error, otherwise the lookup function. -/
def urlParse (rawURL : Str) : Option (Str → Str) :=
  let uf : Str × Str :=
    match Cut "#".toList rawURL with
    | none => (rawURL, [])
    | some (u, frag) => (u, frag)
  match parseRawQuery uf.1 with
  | none => none
  | some rawQuery =>
    if (unescape .encodeFragment uf.2).isSome then some (queryGet rawQuery) else none

/-! ## `extractYouTubeID` -/

/-- Embedding of `extractYouTubeID`.  `parse` stands for `url.Parse` followed by
`u.Query().Get`: `parse urlStr = none` when `url.Parse` fails, and otherwise
`parse urlStr = some get` with `get key` the value of `u.Query().Get(key)`. -/
def extractYouTubeID (parse : Str → Option (Str → Str)) (urlStr : Str) :
    Except ExtractErr (Str × Str) :=
  if Contains urlStr "playlist".toList then
    match parse urlStr with
    | none => .error .urlParse
    | some get =>
      let playlistID := get "list".toList
      if playlistID = [] then .error .noPlaylistID else .ok ("playlist".toList, playlistID)
  else
    if Contains urlStr "youtu.be/".toList then
      let parts := Split urlStr "youtu.be/".toList
      let videoID := if 1 < parts.length then stripQuery (parts.getD 1 []) else []
      if videoID = [] then .error .noVideoID else .ok ("video".toList, videoID)
    else if Contains urlStr "watch?v=".toList then
      match parse urlStr with
      | none => .error .urlParse
      | some get =>
        let videoID := get "v".toList
        if videoID = [] then .error .noVideoID else .ok ("video".toList, videoID)
    else .error .noVideoID

/-! ## Duration formatting -/

/-- Go `fmt.Sprintf("%d", n)`. -/
def fmtInt (n : Int) : Str :=
  if n < 0 then '-' :: Nat.toDigits 10 n.natAbs else Nat.toDigits 10 n.natAbs

/-- Go `fmt.Sprintf("%02d", n)`: at least two characters, padded with zeros; the
sign of a negative number counts for the width. -/
def fmtInt02 (n : Int) : Str :=
  if n < 0 then '-' :: Nat.toDigits 10 n.natAbs
  else if (Nat.toDigits 10 n.natAbs).length < 2 then '0' :: Nat.toDigits 10 n.natAbs
  else Nat.toDigits 10 n.natAbs

/-- Go `strconv.Atoi` on a 64-bit platform: an optional sign followed by one or
more decimal digits, with a value that fits `int`; `none` for an error. -/
def Atoi (s : Str) : Option Int :=
  let sd : Bool × Str :=
    match s with
    | '-' :: r => (true, r)
    | '+' :: r => (false, r)
    | _ => (false, s)
  if sd.2 = [] then none
  else if sd.2.all (fun c => between '0' '9' c) then
    let n : Nat := sd.2.foldl (fun acc c => 10 * acc + (c.toNat - 48)) 0
    let v : Int := if sd.1 then -(n : Int) else (n : Int)
    if -(2 : Int) ^ 63 ≤ v ∧ v < (2 : Int) ^ 63 then some v else none
  else none

/-- The formatting of `duration_ms` in `getSpotifyItemInfo`, on `ms = int(durationMs)`:
`minutes := ms / 60000`, `seconds := (ms % 60000) / 1000` with Go's truncating
division, then `fmt.Sprintf("%d:%02d", minutes, seconds)`. -/
def formatDurationMs (ms : Int) : Str :=
  fmtInt (Int.tdiv ms 60000) ++ ":".toList ++ fmtInt02 (Int.tdiv (Int.tmod ms 60000) 1000)

/-- The `minutes` and `seconds` variables of `parseYouTubeDuration` when it
reaches its `Sprintf`. -/
def durationParts (duration : Str) : Int × Int :=
  let d := TrimPrefix duration "PT".toList
  if Contains d "M".toList then
    let parts := Split d "M".toList
    let minutes : Int :=
      if 0 < parts.length then
        match Atoi (parts.getD 0 []) with
        | some m => m
        | none => 0
      else 0
    let seconds : Int :=
      if 1 < parts.length then
        match Atoi (TrimSuffix (parts.getD 1 []) "S".toList) with
        | some sec => sec
        | none => 0
      else 0
    (minutes, seconds)
  else if Contains d "S".toList then
    (0,
      match Atoi (TrimSuffix d "S".toList) with
      | some sec => sec
      | none => 0)
  else (0, 0)

/-- Embedding of `parseYouTubeDuration`. -/
def parseYouTubeDuration (duration : Str) : Str :=
  fmtInt (durationParts duration).1 ++ ":".toList ++ fmtInt02 (durationParts duration).2

/-! ## The metadata resolvers -/

/-- A value decoded by `encoding/json` into `interface{}`.  A number carries
`int(x)`, the only way the program reads numbers. -/
inductive JSON where
  | null
  | bool (b : Bool)
  | num (n : Int)
  | str (s : Str)
  | arr (items : List JSON)
  | obj (fields : List (Str × JSON))

/-- A decoded `map[string]interface{}`. -/
abbrev JMap := List (Str × JSON)

/-- Map indexing `m[key]`: `none` is the nil interface of an absent key. -/
def JMap.get (m : JMap) (key : Str) : Option JSON :=
  match m.find? (fun kv => kv.1 == key) with
  | none => none
  | some kv => some kv.2

/-- The checked assertion `x.(string)`. -/
def asString : Option JSON → Option Str
  | some (.str s) => some s
  | _ => none

/-- The checked assertion `x.(float64)`, read through `int(...)`. -/
def asNumber : Option JSON → Option Int
  | some (.num n) => some n
  | _ => none

/-- The checked assertion `x.(map[string]interface{})`. -/
def asMap : Option JSON → Option JMap
  | some (.obj f) => some f
  | _ => none

/-- The checked assertion `x.([]interface{})`. -/
def asArray : Option JSON → Option (List JSON)
  | some (.arr l) => some l
  | _ => none

/-- The record `TrackInfo`. -/
structure TrackInfo where
  URL : Str
  Title : Str
  Platform : Str
  /-- the field `Type` of the source -/
  Type_ : Str
  Duration : Str
  Thumbnail : Str
  TrackCount : Option Int
  deriving DecidableEq, Repr

/-- What one resolver call meets upstream: the outcome of `getAccessToken`
(`none` for an error) and the outcome of the HTTP request with its JSON decoding
(`none` for a request, transport or decode error, otherwise the decoded map). -/
structure Upstream where
  token : Option Str
  body : Option JMap

/-- How a resolver call ends. -/
inductive Resolution where
  /-- an unchecked type assertion panics -/
  | panicked
  /-- the resolver returns an error -/
  | failed
  /-- the resolver returns a record -/
  | ok (info : TrackInfo)
  deriving DecidableEq, Repr

/-- The `url` of the first element of an `images` array, read as in
`getSpotifyItemInfo`; the empty string when any step is missing. -/
def firstImageURL (images : Option JSON) : Str :=
  match asArray images with
  | some (img :: _) =>
    match asMap (some img) with
    | some m => (asString (m.get "url".toList)).getD []
    | none => []
  | _ => []

/-- The `total` of a `tracks` object, as in `getSpotifyItemInfo`. -/
def tracksTotal (tracks : Option JSON) : Option Int :=
  match asMap tracks with
  | some m => asNumber (m.get "total".toList)
  | none => none

/-- Embedding of `getSpotifyItemInfo`. -/
def getSpotifyItemInfo (w : Upstream) (itemType itemID : Str) : Resolution :=
  match w.token with
  | none => .failed
  | some _ =>
    if ¬ (itemType = "track".toList ∨ itemType = "playlist".toList ∨ itemType = "artist".toList
        ∨ itemType = "album".toList) then .failed
    else
      match w.body with
      | none => .failed
      | some result =>
        let trackInfo : TrackInfo :=
          { URL := "https://open.spotify.com/".toList ++ itemType ++ "/".toList ++ itemID
            Title := (asString (result.get "name".toList)).getD []
            Platform := "spotify".toList
            Type_ := itemType
            Duration := []
            Thumbnail := []
            TrackCount := none }
        if itemType = "track".toList then
          .ok { trackInfo with
            Duration :=
              match asNumber (result.get "duration_ms".toList) with
              | some ms => formatDurationMs ms
              | none => []
            Thumbnail :=
              match asMap (result.get "album".toList) with
              | some album => firstImageURL (album.get "images".toList)
              | none => [] }
        else if itemType = "playlist".toList then
          .ok { trackInfo with
            TrackCount := tracksTotal (result.get "tracks".toList)
            Thumbnail := firstImageURL (result.get "images".toList) }
        else if itemType = "artist".toList then
          .ok { trackInfo with Thumbnail := firstImageURL (result.get "images".toList) }
        else
          .ok { trackInfo with
            Thumbnail := firstImageURL (result.get "images".toList)
            TrackCount := tracksTotal (result.get "tracks".toList) }

/-- The `medium` thumbnail URL of a YouTube snippet. -/
def mediumThumbnail (snippet : JMap) : Str :=
  match asMap (snippet.get "thumbnails".toList) with
  | some thumbnails =>
    match asMap (thumbnails.get "medium".toList) with
    | some medium => (asString (medium.get "url".toList)).getD []
    | none => []
  | none => []

/-- Embedding of `getYouTubeVideoInfo`.  The assertions on `items[0]` and on
`item["snippet"]` are unchecked and panic when the value is not an object. -/
def getYouTubeVideoInfo (w : Upstream) (videoID : Str) : Resolution :=
  match w.body with
  | none => .failed
  | some result =>
    match asArray (result.get "items".toList) with
    | none => .failed
    | some [] => .failed
    | some (item0 :: _) =>
      match asMap (some item0) with
      | none => .panicked
      | some item =>
        match asMap (item.get "snippet".toList) with
        | none => .panicked
        | some snippet =>
          .ok
            { URL := "https://www.youtube.com/watch?v=".toList ++ videoID
              Title := (asString (snippet.get "title".toList)).getD []
              Platform := "youtube".toList
              Type_ := "track".toList
              Duration :=
                match asMap (item.get "contentDetails".toList) with
                | some contentDetails =>
                  match asString (contentDetails.get "duration".toList) with
                  | some duration => parseYouTubeDuration duration
                  | none => []
                | none => []
              Thumbnail := mediumThumbnail snippet
              TrackCount := none }

/-- Embedding of `getYouTubePlaylistInfo`. -/
def getYouTubePlaylistInfo (w : Upstream) (playlistID : Str) : Resolution :=
  match w.token with
  | none => .failed
  | some _ =>
    match w.body with
    | none => .failed
    | some result =>
      match asArray (result.get "items".toList) with
      | none => .failed
      | some [] => .failed
      | some (item0 :: _) =>
        match asMap (some item0) with
        | none => .panicked
        | some item =>
          match asMap (item.get "snippet".toList) with
          | none => .panicked
          | some snippet =>
            .ok
              { URL := "https://www.youtube.com/playlist?list=".toList ++ playlistID
                Title := (asString (snippet.get "title".toList)).getD []
                Platform := "youtube".toList
                Type_ := "playlist".toList
                Duration := []
                Thumbnail := mediumThumbnail snippet
                TrackCount :=
                  match asMap (item.get "contentDetails".toList) with
                  | some contentDetails => asNumber (contentDetails.get "itemCount".toList)
                  | none => none }

/-! ## `processUrls` -/

/-- The calls a worker of `processUrls` makes. -/
inductive Call where
  | extractSpotifyID (urlStr : Str)
  | extractYouTubeID (urlStr : Str)
  | getSpotifyItemInfo (itemType itemID : Str)
  | getYouTubePlaylistInfo (playlistID : Str)
  | getYouTubeVideoInfo (videoID : Str)
  deriving DecidableEq, Repr

/-- One worker of `processUrls`: its URL and what its resolver call meets. -/
structure Job where
  url : Str
  upstream : Upstream

/-- What a worker did: the calls it made, in order, and how it ended
(`failed`: it returned without a record). -/
structure WorkerRun where
  calls : List Call
  result : Resolution
  deriving DecidableEq, Repr

/-- The body of the goroutine of `processUrls`, up to step 4. -/
def worker (parse : Str → Option (Str → Str)) (j : Job) : WorkerRun :=
  if Contains j.url "spotify.com".toList then
    match extractSpotifyID j.url with
    | .error _ => ⟨[.extractSpotifyID j.url], .failed⟩
    | .ok (itemType, itemID) =>
      ⟨[.extractSpotifyID j.url, .getSpotifyItemInfo itemType itemID],
        getSpotifyItemInfo j.upstream itemType itemID⟩
  else if Contains j.url "youtube.com".toList || Contains j.url "youtu.be".toList then
    match extractYouTubeID parse j.url with
    | .error _ => ⟨[.extractYouTubeID j.url], .failed⟩
    | .ok (itemType, itemID) =>
      if itemType = "playlist".toList then
        ⟨[.extractYouTubeID j.url, .getYouTubePlaylistInfo itemID],
          getYouTubePlaylistInfo j.upstream itemID⟩
      else
        ⟨[.extractYouTubeID j.url, .getYouTubeVideoInfo itemID],
          getYouTubeVideoInfo j.upstream itemID⟩
  else ⟨[], .failed⟩

/-- The record `ProcessUrlsResponse` (its `Error` field is never set). -/
structure ProcessUrlsResponse where
  Tracks : List TrackInfo
  Playlists : List TrackInfo
  Albums : List TrackInfo
  Artists : List TrackInfo
  deriving DecidableEq, Repr

/-- Step 4 of the goroutine: the `switch trackInfo.Type` that appends the record
to one of the four slices. -/
def appendByType (r : ProcessUrlsResponse) (trackInfo : TrackInfo) : ProcessUrlsResponse :=
  if trackInfo.Type_ = "track".toList then { r with Tracks := r.Tracks ++ [trackInfo] }
  else if trackInfo.Type_ = "playlist".toList then { r with Playlists := r.Playlists ++ [trackInfo] }
  else if trackInfo.Type_ = "album".toList then { r with Albums := r.Albums ++ [trackInfo] }
  else if trackInfo.Type_ = "artist".toList then { r with Artists := r.Artists ++ [trackInfo] }
  else { r with Tracks := r.Tracks ++ [trackInfo] }

/-- The records the workers hand to step 4, in the order in which they do. -/
def resolved (parse : Str → Option (Str → Str)) (done : List Job) : List TrackInfo :=
  done.filterMap (fun j =>
    match (worker parse j).result with
    | .ok info => some info
    | _ => none)

/-- The four slices after all workers have finished (`wg.Wait()`).  `done` lists
the workers in the order in which they reach step 4; every append is made under
the mutex of its slice, so the slices are built one record at a time. -/
def runWorkers (parse : Str → Option (Str → Str)) (done : List Job) : ProcessUrlsResponse :=
  (resolved parse done).foldl appendByType ⟨[], [], [], []⟩

/-- How a call of `processUrls` ends. -/
inductive Reply where
  /-- status 400 with `No URLs provided` -/
  | badRequest
  /-- a panic in a worker goroutine ends the process before the handler has
  written the response -/
  | crashed
  /-- status 200 with the response -/
  | ok (response : ProcessUrlsResponse)
  deriving DecidableEq, Repr

/-- Embedding of `processUrls`, on a request body that was bound to `urls`.
One goroutine is started per URL; the order in which the goroutines finish is
not fixed by the program, so it is an argument: `done` lists the workers (each
URL with what its resolver call meets upstream) in the order in which they
finish, and is a permutation of the workers started for `urls`.

A worker that panics still runs its deferred `wg.Done()`, and the panic then
ends the process.  `wg.Wait()` returns once every worker has called
`wg.Done()`, that is once every other worker has made its append; from then on
the handler, which writes the response built from the four slices, races with
the end of the process.  `handlerFirst` is the outcome of that race: `true`
when the handler writes the response before the process ends. -/
def processUrls (parse : Str → Option (Str → Str)) (urls : List Str) (done : List Job)
    (handlerFirst : Bool) : Reply :=
  if urls.length = 0 then .badRequest
  else if done.any (fun j => decide ((worker parse j).result = .panicked)) ∧ handlerFirst = false
  then .crashed
  else .ok (runWorkers parse done)

/-- The test that sends a record to the tracks slice: its `Type` is none of
`playlist`, `album`, `artist`. -/
def goesToTracks (t : TrackInfo) : Bool :=
  !(decide (t.Type_ = "playlist".toList) || decide (t.Type_ = "album".toList)
    || decide (t.Type_ = "artist".toList))

/-- The textual form `<minutes>:<seconds>` with a seconds part of exactly two
decimal digits: the text ends in a colon followed by two digits, and no other
colon comes before. -/
def TwoDigitSeconds (s : Str) : Prop :=
  ∃ m d1 d2, s = m ++ [':', d1, d2] ∧ ':' ∉ m ∧ d1.isDigit = true ∧ d2.isDigit = true

/-! ## `getAccessToken` -/

/-- The package variables `getAccessToken` reads and writes.  A `time.Time` is
its number of nanoseconds on the clock. -/
structure Globals where
  youtubeAPIKey : Str
  cachedToken : Str
  tokenExpiry : Int

/-- The record `SpotifyToken`, as decoded from the issuance response (an absent
field is zero). -/
structure SpotifyToken where
  AccessToken : Str
  ExpiresIn : Int

/-- What the token request of `getAccessToken` meets. -/
inductive Issuance where
  /-- `http.NewRequest` fails -/
  | requestError
  /-- `client.Do` fails -/
  | transportError
  /-- the body does not decode -/
  | decodeError
  /-- the body decodes to a `SpotifyToken` -/
  | decoded (tokenResponse : SpotifyToken)

/-- The errors of `getAccessToken`. -/
inductive TokenErr where
  | createRequest
  | transport
  | decode
  | youtubeKeyNotSet
  | unsupportedService
  deriving DecidableEq, Repr

/-- Wrap-around of a Go `int64` (`time.Duration`) computation. -/
def wrapInt64 (x : Int) : Int := (x + 2 ^ 63) % 2 ^ 64 - 2 ^ 63

/-- Embedding of `getAccessToken`, the whole of it runs under `tokenMutex`.
`now` is the reading of `time.Now()` in the cache test, `later` its reading when
the new expiry is computed; `issuance` is what the token request meets when it
is made.  The result is the returned pair and the package variables after the
call. -/
def getAccessToken (service : Str) (g : Globals) (now later : Int) (issuance : Issuance) :
    Except TokenErr Str × Globals :=
  if service = "spotify".toList then
    if g.cachedToken ≠ [] ∧ now < g.tokenExpiry then (.ok g.cachedToken, g)
    else
      match issuance with
      | .requestError => (.error .createRequest, g)
      | .transportError => (.error .transport, g)
      | .decodeError => (.error .decode, g)
      | .decoded tokenResponse =>
        (.ok tokenResponse.AccessToken,
          { g with
            cachedToken := tokenResponse.AccessToken
            tokenExpiry := later + wrapInt64 (tokenResponse.ExpiresIn * 1000000000) })
  else if service = "youtube".toList then
    if g.youtubeAPIKey = [] then (.error .youtubeKeyNotSet, g) else (.ok g.youtubeAPIKey, g)
  else (.error .unsupportedService, g)

/-- The first segment equal to a kind token is `k`, it is immediately followed
by a segment, and `id`, the text of that segment before its first `?`, is not
empty. -/
def FirstKindPair (parts : List Str) (k id : Str) : Prop :=
  ∃ pre nxt post, parts = pre ++ k :: nxt :: post ∧ (∀ p ∈ pre, isSpotifyKind p = false) ∧
    isSpotifyKind k = true ∧ id = stripQuery nxt ∧ id ≠ []

/-- The segments of `u ++ v`: the last segment of `u` and the first segment of
`v` are joined, all others are kept. -/
def glue : List Str → List Str → List Str
  | [], Q => Q
  | [p], [] => [p]
  | [p], q :: Q => (p ++ q) :: Q
  | p :: p2 :: P, Q => p :: glue (p2 :: P) Q

/-- Calls of `getAccessToken` made one after the other (`tokenMutex` lets no two
overlap): each call is given by its two clock readings and by what its token
request would meet; the results, in order, and the package variables after the
last call. -/
def getAccessTokenCalls (service : Str) :
    Globals → List (Int × Int × Issuance) → List (Except TokenErr Str) × Globals
  | g, [] => ([], g)
  | g, (now, later, issuance) :: rest =>
    ((getAccessToken service g now later issuance).1
        :: (getAccessTokenCalls service (getAccessToken service g now later issuance).2 rest).1,
      (getAccessTokenCalls service (getAccessToken service g now later issuance).2 rest).2)

/-! ## `search`: the Spotify part -/

/-- Go `unicode.IsSpace`. -/
def isSpace (c : Char) : Bool :=
  c.toNat ∈ [9, 10, 11, 12, 13, 32, 0x85, 0xA0, 0x1680, 0x2028, 0x2029, 0x202f, 0x205f, 0x3000]
    || (decide (0x2000 ≤ c.toNat) && decide (c.toNat ≤ 0x200a))

/-- Go `strings.TrimSpace`. -/
def TrimSpace (s : Str) : Str := ((s.dropWhile isSpace).reverse.dropWhile isSpace).reverse

/-- Go `delete(m, key)`. -/
def JMap.delete (m : JMap) (key : Str) : JMap := m.filter (fun kv => !(kv.1 == key))

/-- The assignment `m[key] = v`. -/
def JMap.set (m : JMap) (key : Str) (v : JSON) : JMap := (key, v) :: m.delete key

/-- The closure `sanitizeItem` of `search`: delete every key of `keysToRemove`. -/
def sanitizeItem (item : JMap) (keysToRemove : List Str) : JMap :=
  keysToRemove.foldl JMap.delete item

/-- The slice `keysToRemove` of `search`. -/
def keysToRemove : List Str := ["available_markets".toList]

/-- The loop that builds `formattedItems`: every element of `itemsRaw` that is an
object is sanitized and kept, every other element is skipped. -/
def formatItems (itemsRaw : List JSON) : List JSON :=
  itemsRaw.filterMap (fun raw =>
    match asMap (some raw) with
    | some itemMap => some (JSON.obj (sanitizeItem itemMap keysToRemove))
    | none => none)

/-- The totals and flags the Spotify goroutine of `search` collects. -/
structure SpotifyPaging where
  totalTracks : Int
  totalArtists : Int
  totalPlaylists : Int
  totalAlbums : Int
  hasNextTrack : Bool
  hasPrevTrack : Bool
  hasNextArtist : Bool
  hasPrevArtist : Bool
  hasNextPlaylist : Bool
  hasPrevPlaylist : Bool
  hasNextAlbum : Bool
  hasPrevAlbum : Bool

/-- The `switch endpointType` that stores `int(totalVal)`. -/
def setTotal (p : SpotifyPaging) (endpointType : Str) (v : Int) : SpotifyPaging :=
  if endpointType = "track".toList then { p with totalTracks := v }
  else if endpointType = "artist".toList then { p with totalArtists := v }
  else if endpointType = "playlist".toList then { p with totalPlaylists := v }
  else if endpointType = "album".toList then { p with totalAlbums := v }
  else p

/-- The `switch endpointType` that stores `hasNext`. -/
def setHasNext (p : SpotifyPaging) (endpointType : Str) (b : Bool) : SpotifyPaging :=
  if endpointType = "track".toList then { p with hasNextTrack := b }
  else if endpointType = "artist".toList then { p with hasNextArtist := b }
  else if endpointType = "playlist".toList then { p with hasNextPlaylist := b }
  else if endpointType = "album".toList then { p with hasNextAlbum := b }
  else p

/-- The `switch endpointType` that stores `hasPrev`. -/
def setHasPrev (p : SpotifyPaging) (endpointType : Str) (b : Bool) : SpotifyPaging :=
  if endpointType = "track".toList then { p with hasPrevTrack := b }
  else if endpointType = "artist".toList then { p with hasPrevArtist := b }
  else if endpointType = "playlist".toList then { p with hasPrevPlaylist := b }
  else if endpointType = "album".toList then { p with hasPrevAlbum := b }
  else p

/-- The three updates of the totals and flags from `endpointData`. -/
def updatePaging (p : SpotifyPaging) (endpointType : Str) (endpointData : JMap) :
    SpotifyPaging :=
  let p1 :=
    match asNumber (endpointData.get "total".toList) with
    | some totalVal => setTotal p endpointType totalVal
    | none => p
  let p2 :=
    match asString (endpointData.get "next".toList) with
    | some nextURL => setHasNext p1 endpointType (decide (nextURL ≠ []))
    | none => p1
  match asString (endpointData.get "previous".toList) with
  | some prevURL => setHasPrev p2 endpointType (decide (prevURL ≠ []))
  | none => p2

/-- The `pagination` object of the Spotify part. -/
def paginationObject (limitSpotify offsetSpotify : Int) (p : SpotifyPaging) : JSON :=
  .obj
    [("limit".toList, .num limitSpotify), ("offset".toList, .num offsetSpotify),
      ("total_tracks".toList, .num p.totalTracks), ("has_next_track".toList, .bool p.hasNextTrack),
      ("has_previous_track".toList, .bool p.hasPrevTrack),
      ("total_artists".toList, .num p.totalArtists),
      ("has_next_artist".toList, .bool p.hasNextArtist),
      ("has_previous_artist".toList, .bool p.hasPrevArtist),
      ("total_playlists".toList, .num p.totalPlaylists),
      ("has_next_playlist".toList, .bool p.hasNextPlaylist),
      ("has_previous_playlist".toList, .bool p.hasPrevPlaylist),
      ("total_albums".toList, .num p.totalAlbums),
      ("has_next_album".toList, .bool p.hasNextAlbum),
      ("has_previous_album".toList, .bool p.hasPrevAlbum)]

/-- The variables of the Spotify goroutine of `search` between two rounds of its
loop: `spotifyResult` and the totals and flags. -/
structure SpotifyUnit where
  spotifyResult : JMap
  paging : SpotifyPaging

/-- The URL `urlSearch` of one round. -/
def urlSearch (escapedQuery endpointType : Str) (limitSpotify offsetSpotify : Int) : Str :=
  "https://api.spotify.com/v1/search?q=".toList ++ escapedQuery ++ "&type=".toList
    ++ endpointType ++ "&limit=".toList ++ fmtInt limitSpotify ++ "&offset=".toList
    ++ fmtInt offsetSpotify

/-- One round of the loop `for _, endpointType := range spotifyTypes`.  `response`
is what the request of this round meets: `none` for a transport or decode
error, otherwise the decoded map.  The error of `http.NewRequest` is dropped by
the program; `http.NewRequest` fails exactly when `url.Parse` fails on
`urlSearch`, `req` is then nil and `req.Header.Set` panics: the result `none`. -/
def searchSpotifyRound (parse : Str → Option (Str → Str)) (escapedQuery : Str)
    (limitSpotify offsetSpotify : Int) (st : SpotifyUnit) (rawType : Str)
    (response : Option JMap) : Option SpotifyUnit :=
  let endpointType := TrimSpace rawType
  if endpointType = [] then some st
  else
    match parse (urlSearch escapedQuery endpointType limitSpotify offsetSpotify) with
    | none => none
    | some _ =>
      match response with
      | none => some st
      | some result =>
        match asMap (result.get (endpointType ++ "s".toList)) with
        | none => some st
        | some endpointData =>
          match asArray (endpointData.get "items".toList) with
          | none => some st
          | some itemsRaw =>
            some
              { spotifyResult :=
                  st.spotifyResult.set (endpointType ++ "s".toList) (.arr (formatItems itemsRaw))
                paging := updatePaging st.paging endpointType endpointData }

/-- The loop over `spotifyTypes`, from position `i` on; `responses i` is what the
request for the type at position `i` meets.  The result is the variables as the
loop leaves them, and whether it left them by a panic (`true`) or by coming to
the end of `spotifyTypes` (`false`). -/
def searchSpotifyLoop (parse : Str → Option (Str → Str)) (escapedQuery : Str)
    (limitSpotify offsetSpotify : Int) (responses : Nat → Option JMap) :
    Nat → List Str → SpotifyUnit → SpotifyUnit × Bool
  | _, [], st => (st, false)
  | i, rawType :: rest, st =>
    match searchSpotifyRound parse escapedQuery limitSpotify offsetSpotify st rawType
        (responses i) with
    | none => (st, true)
    | some st1 =>
      searchSpotifyLoop parse escapedQuery limitSpotify offsetSpotify responses (i + 1) rest st1

/-- The conversion of the `limit` parameter of `search`. -/
def spotifyLimit (spotifyLimitParam : Str) : Int :=
  match Atoi spotifyLimitParam with
  | some n => if n < 1 then 10 else n
  | none => 10

/-- The conversion of the `offset` parameter of `search`. -/
def spotifyOffset (spotifyOffsetParam : Str) : Int :=
  match Atoi spotifyOffsetParam with
  | some n => if n < 0 then 0 else n
  | none => 0

/-- The Spotify goroutine of `search`: the map `spotifyResult` as the response
holds it, its `spotify` member; `none` when no response is written.  `token` is
the outcome of `getAccessToken("spotify")` (`none` for an error), `escapedQuery`
the value of `url.QueryEscape(query)`, the three parameters are the values of
`type`, `limit` and `offset` after their defaults.

When the goroutine panics in a round, `spotifyResult` stays as the rounds before
left it, without `pagination`; the deferred `wg.Done()` still runs and the
panic then ends the process, so the handler races with the end of the process:
`handlerFirst` is `true` when the handler writes the response first. -/
def searchSpotify (parse : Str → Option (Str → Str)) (token : Option Str)
    (escapedQuery spotifyTypeParam spotifyLimitParam spotifyOffsetParam : Str)
    (responses : Nat → Option JMap) (handlerFirst : Bool) : Option JMap :=
  match token with
  | none => some []
  | some _ =>
    match searchSpotifyLoop parse escapedQuery (spotifyLimit spotifyLimitParam)
        (spotifyOffset spotifyOffsetParam) responses 0 (Split spotifyTypeParam ",".toList)
        ⟨[], ⟨0, 0, 0, 0, false, false, false, false, false, false, false, false⟩⟩ with
    | (st, true) => if handlerFirst then some st.spotifyResult else none
    | (st, false) =>
      some (st.spotifyResult.set "pagination".toList
        (paginationObject (spotifyLimit spotifyLimitParam) (spotifyOffset spotifyOffsetParam)
          st.paging))

/-- An entry of `spotifyResult` written by a round of the loop: the sanitized
`items` of the object the response holds under the entry's key. -/
def StoredItems (responses : Nat → Option JMap) (e : Str × JSON) : Prop :=
  ∃ i result endpointData itemsRaw, responses i = some result ∧
    asMap (result.get e.1) = some endpointData ∧
    asArray (endpointData.get "items".toList) = some itemsRaw ∧
    e.2 = .arr (formatItems itemsRaw)

/-! ## `downloadMusic` -/

/-- What the subprocess of one worker of `downloadMusic` does. -/
inductive ProcOutcome where
  /-- `cmd.StdoutPipe()` fails with the error text `err` -/
  | stdoutPipeFailed (err : Str)
  /-- `cmd.StderrPipe()` fails with the error text `err` -/
  | stderrPipeFailed (err : Str)
  /-- `cmd.Start()` fails with the error text `err` -/
  | startFailed (err : Str)
  /-- the process starts and comes to an end: `output` lists the lines the
  scanner reads, each with whether its write to the client succeeds, and
  `waitErr` is the error text of `cmd.Wait()`, `none` for exit status zero -/
  | ran (output : List (Str × Bool)) (waitErr : Option Str)

/-- The command a worker runs for its URL. -/
def downloadCommand (urlStr : Str) : List Str :=
  if Contains urlStr "spotify".toList then
    ["docker".toList, "exec".toList, "-i".toList, "spotDL".toList, "spotdl".toList, urlStr]
  else
    ["docker".toList, "exec".toList, "-i".toList, "yt-dlp".toList, "yt-dlp".toList, "-f".toList,
      "bestaudio".toList, "--extract-audio".toList, "--audio-format".toList, "mp3".toList,
      "--progress".toList, "-o".toList, "/downloads/%(title)s.%(ext)s".toList, urlStr]

/-- The line `Failed to start download for URL %s`. -/
def failedToStartLine (urlStr : Str) : Str :=
  "Failed to start download for URL ".toList ++ urlStr ++ [Char.ofNat 10]

/-- The line `Download failed for URL %s: %s`. -/
def downloadFailedLine (urlStr err : Str) : Str :=
  "Download failed for URL ".toList ++ urlStr ++ ": ".toList ++ err ++ [Char.ofNat 10]

/-- The line `Download completed successfully for URL %s`. -/
def completedLine (urlStr : Str) : Str :=
  "Download completed successfully for URL ".toList ++ urlStr ++ [Char.ofNat 10]

/-- The line `[%s] %s` written for one line of subprocess output. -/
def chunkLine (urlStr text : Str) : Str :=
  '[' :: urlStr ++ "] ".toList ++ text ++ [Char.ofNat 10]

/-- The line `Number of workers: %d`. -/
def workerCountLine (workerCount : Nat) : Str :=
  "Number of workers: ".toList ++ Nat.toDigits 10 workerCount ++ [Char.ofNat 10]

/-- The line `All downloads completed`. -/
def allCompletedLine : Str := "All downloads completed".toList ++ [Char.ofNat 10]

/-- The loop `for scanner.Scan()` of a worker: the lines it writes, and whether it
ran to the end of the output (`false`: a write failed and the worker returned). -/
def scanLoop (urlStr : Str) : List (Str × Bool) → List Str × Bool
  | [] => ([], true)
  | (text, written) :: rest =>
    if written then (chunkLine urlStr text :: (scanLoop urlStr rest).1, (scanLoop urlStr rest).2)
    else ([], false)

/-- The line a worker writes after `cmd.Wait()`: the failure line with the error
text when `cmd.Wait()` returns an error, the success line otherwise. -/
def waitLine (urlStr : Str) : Option Str → Str
  | some err => downloadFailedLine urlStr err
  | none => completedLine urlStr

/-- The body of the goroutine of `downloadMusic`: the lines the worker writes to
the response, in order. -/
def downloadWorker (urlStr : Str) : ProcOutcome → List Str
  | .stdoutPipeFailed _ => [failedToStartLine urlStr]
  | .stderrPipeFailed _ => [failedToStartLine urlStr]
  | .startFailed _ => [failedToStartLine urlStr]
  | .ran output waitErr =>
    if (scanLoop urlStr output).2 then (scanLoop urlStr output).1 ++ [waitLine urlStr waitErr]
    else (scanLoop urlStr output).1

/-- The order in which goroutines write under the mutex `mu`.  `threads` holds
the lines each goroutine still has to write; the schedule names the goroutine
that writes next.  A goroutine that has nothing left is passed over, and when
the schedule ends the goroutines run to their end one after the other. -/
def interleave : List Nat → List (List Str) → List Str
  | [], threads => threads.flatten
  | i :: sched, threads =>
    match threads[i]? with
    | some (line :: rest) => line :: interleave sched (threads.set i rest)
    | _ => interleave sched threads

/-- How a call of `downloadMusic` ends. -/
inductive DownloadReply where
  /-- status 400 with `No URLs provided` -/
  | badRequest
  /-- status 200 and the lines written to the response, in order -/
  | stream (lines : List Str)
  deriving DecidableEq, Repr

/-- Embedding of `downloadMusic`, on a request body that was bound to the URLs
of `jobs`; each job is a URL with what its subprocess does.  The handler is
goroutine 0: after starting the workers (goroutines 1, 2, ...) it writes the
worker count, waits for all workers (`wg.Wait()`) and then writes the last
line.  The schedule `sched` fixes the order of the writes before that last
line. -/
def downloadMusic (jobs : List (Str × ProcOutcome)) (sched : List Nat) : DownloadReply :=
  if jobs.length = 0 then .badRequest
  else
    .stream
      (interleave sched
          ([workerCountLine jobs.length] :: jobs.map (fun j => downloadWorker j.1 j.2))
        ++ [allCompletedLine])

/-- A completion line of a worker: a line that starts with one of the three
completion messages. -/
def isCompletionLine (line : Str) : Bool :=
  HasPrefix line "Failed to start download for URL ".toList
    || HasPrefix line "Download failed for URL ".toList
    || HasPrefix line "Download completed successfully for URL ".toList

/-- Every write of an output line to the client succeeds. -/
def ProcOutcome.writesSucceed : ProcOutcome → Bool
  | .ran output _ => output.all (fun p => p.2)
  | _ => true

/-! # Theorems -/

/-! ## Facts about the string functions -/

theorem Cut_length_lt {sep : Str} (hsep : sep ≠ []) :
    ∀ {s a b : Str}, Cut sep s = some (a, b) → b.length < s.length := by
  intro s
  induction s with
  | nil => intro a b h; simp [Cut, hsep] at h
  | cons c cs ih =>
    intro a b h
    unfold Cut at h
    split at h
    · simp only [Option.some.injEq, Prod.mk.injEq] at h
      obtain ⟨-, rfl⟩ := h
      have : 0 < sep.length := List.length_pos.mpr hsep
      simp only [List.length_drop, List.length_cons]
      omega
    · split at h
      · simp at h
      · rename_i a0 b0 hc
        simp only [Option.some.injEq, Prod.mk.injEq] at h
        obtain ⟨-, rfl⟩ := h
        have := ih hc
        simp only [List.length_cons]
        omega

theorem splitLoop_fuel {sep : Str} (hsep : sep ≠ []) :
    ∀ (n m : Nat) (s : Str), s.length ≤ n → s.length ≤ m →
      splitLoop sep n s = splitLoop sep m s := by
  intro n
  induction n with
  | zero =>
    intro m s hn _
    have hs : s = [] := List.length_eq_zero.mp (Nat.le_zero.mp hn)
    subst hs
    cases m <;> simp [splitLoop, Cut, hsep]
  | succ n ih =>
    intro m s hn hm
    cases m with
    | zero =>
      have hs : s = [] := List.length_eq_zero.mp (Nat.le_zero.mp hm)
      subst hs
      simp [splitLoop, Cut, hsep]
    | succ m =>
      simp only [splitLoop]
      cases hc : Cut sep s with
      | none => rfl
      | some ab =>
        obtain ⟨a, b⟩ := ab
        have := Cut_length_lt hsep hc
        simp only
        rw [ih m b (by omega) (by omega)]

/-- Unfolding of `Split` for a non-empty separator: cut once, split the rest. -/
theorem Split_unfold {sep : Str} (hsep : sep ≠ []) (s : Str) :
    Split s sep =
      match Cut sep s with
      | none => [s]
      | some (a, b) => a :: Split b sep := by
  simp only [Split, if_neg hsep]
  cases hs : s.length with
  | zero =>
    have : s = [] := List.length_eq_zero.mp hs
    subst this
    simp [splitLoop, Cut, hsep]
  | succ n =>
    simp only [splitLoop]
    cases hc : Cut sep s with
    | none => rfl
    | some ab =>
      obtain ⟨a, b⟩ := ab
      have := Cut_length_lt hsep hc
      simp only
      rw [splitLoop_fuel hsep n b.length b (by omega) (le_refl _)]

theorem Cut_char_cons (c x : Char) (xs : Str) :
    Cut [c] (x :: xs) =
      if x = c then some ([], xs)
      else
        match Cut [c] xs with
        | none => none
        | some (a, b) => some (x :: a, b) := by
  rw [Cut]
  by_cases h : x = c
  · subst h; simp
  · have h2 : ¬ c = x := fun e => h e.symm
    simp [h, h2]

/-- Splitting on one character, by recursion on the string. -/
theorem Split_char_nil (c : Char) : Split [] [c] = [[]] := by
  simp [Split, splitLoop]

theorem Split_char_ne_nil (c : Char) (s : Str) : Split s [c] ≠ [] := by
  rw [Split_unfold (by simp)]
  cases Cut [c] s with
  | none => simp
  | some ab => simp

theorem Split_char_cons (c x : Char) (xs : Str) :
    Split (x :: xs) [c] =
      if x = c then [] :: Split xs [c]
      else
        match Split xs [c] with
        | [] => [[x]]
        | h :: t => (x :: h) :: t := by
  rw [Split_unfold (by simp), Cut_char_cons]
  by_cases h : x = c
  · simp [h]
  · simp only [if_neg h]
    rw [Split_unfold (by simp) xs]
    cases hc : Cut [c] xs with
    | none => simp
    | some ab => simp

theorem head_Split_char (c : Char) (s : Str) :
    (Split s [c]).headD [] = s.takeWhile (fun x => !decide (x = c)) := by
  induction s with
  | nil => simp [Split_char_nil]
  | cons x xs ih =>
    rw [Split_char_cons]
    by_cases h : x = c
    · simp [h]
    · simp only [if_neg h]
      cases hs : Split xs [c] with
      | nil => exact absurd hs (Split_char_ne_nil c xs)
      | cons a t =>
        rw [hs] at ih
        simp only [List.headD_cons] at ih
        simp [h, ih]

theorem stripQuery_eq (seg : Str) : stripQuery seg = seg.takeWhile (fun x => !decide (x = '?')) :=
  head_Split_char '?' seg

theorem stripQuery_append_query (seg q : Str) : stripQuery (seg ++ '?' :: q) = stripQuery seg := by
  rw [stripQuery_eq, stripQuery_eq]
  induction seg with
  | nil => simp
  | cons x xs ih =>
    by_cases h : x = '?'
    · simp [h]
    · simp [h, ih]

theorem Split_char_append (c : Char) (u v : Str) :
    Split (u ++ v) [c] = glue (Split u [c]) (Split v [c]) := by
  induction u with
  | nil =>
    rw [Split_char_nil, List.nil_append]
    cases hv : Split v [c] with
    | nil => exact absurd hv (Split_char_ne_nil c v)
    | cons a t => simp [glue]
  | cons x xs ih =>
    rw [List.cons_append, Split_char_cons, Split_char_cons, ih]
    by_cases h : x = c
    · simp only [if_pos h]
      cases hs : Split xs [c] with
      | nil => exact absurd hs (Split_char_ne_nil c xs)
      | cons a t => simp [glue]
    · simp only [if_neg h]
      cases hs : Split xs [c] with
      | nil => exact absurd hs (Split_char_ne_nil c xs)
      | cons a t =>
        cases t with
        | nil =>
          cases hv : Split v [c] with
          | nil => exact absurd hv (Split_char_ne_nil c v)
          | cons b r => simp [glue]
        | cons a2 t2 => simp [glue]

theorem glue_length (P Q : List Str) (hP : P ≠ []) : P.length ≤ (glue P Q).length := by
  induction P with
  | nil => exact absurd rfl hP
  | cons p P ih =>
    cases P with
    | nil => cases Q <;> simp [glue]
    | cons p2 P =>
      have := ih (by simp)
      simp only [glue, List.length_cons] at this ⊢
      omega

/-- A successful scan is not disturbed by query text appended to the last segment. -/
theorem scanParts_glue (P : List Str) (q : Str) (Q : List Str) (k id : Str)
    (h : scanParts P = (k, id)) (hk : k ≠ []) (hid : id ≠ []) :
    scanParts (glue P (('?' :: q) :: Q)) = (k, id) := by
  induction P with
  | nil =>
    simp only [scanParts, Prod.mk.injEq] at h
    exact absurd h.1.symm hk
  | cons p P ih =>
    cases P with
    | nil =>
      simp only [scanParts] at h
      split at h
      · simp only [Prod.mk.injEq] at h; exact absurd h.2.symm hid
      · simp only [Prod.mk.injEq] at h; exact absurd h.1.symm hk
    | cons p2 P =>
      simp only [glue]
      simp only [scanParts] at h ⊢
      by_cases hp : isSpotifyKind p = true
      · simp only [if_pos hp] at h ⊢
        cases P with
        | nil => simp only [glue, stripQuery_append_query]; exact h
        | cons p3 P => simp only [glue]; exact h
      · simp only [if_neg hp] at h ⊢
        exact ih h

theorem Split_query_cons (q : Str) :
    ∃ q0 Q, Split ('?' :: q) ['/'] = ('?' :: q0) :: Q := by
  rw [Split_char_cons]
  cases hs : Split q ['/'] with
  | nil => exact absurd hs (Split_char_ne_nil _ q)
  | cons a t => exact ⟨a, t, by simp⟩

theorem extractSpotifyID_ok_iff (u k id : Str) :
    extractSpotifyID u = .ok (k, id) ↔
      2 ≤ (Split u ['/']).length ∧ scanParts (Split u ['/']) = (k, id) ∧ k ≠ [] ∧ id ≠ [] := by
  have hsl : "/".toList = ['/'] := rfl
  simp only [extractSpotifyID, hsl]
  constructor
  · intro h
    split at h
    · simp at h
    · split at h
      · simp at h
      · rename_i h1 h2
        simp only [Except.ok.injEq, Prod.mk.injEq] at h
        refine ⟨by omega, Prod.ext h.1 h.2, ?_, ?_⟩
        · rw [← h.1]; exact fun e => h2 (Or.inl e)
        · rw [← h.2]; exact fun e => h2 (Or.inr e)
  · rintro ⟨h1, h2, h3, h4⟩
    rw [if_neg (by omega), h2]
    simp [h3, h4]

/-- C1. Whenever `extractSpotifyID` succeeds on `u` with `(kind, id)`, it succeeds
with the same `(kind, id)` on `u ++ "?" ++ q` for every string `q`: query text
appended to a Spotify URL never changes its classification. -/
theorem extractSpotifyID_query_noise (u q k id : Str)
    (h : extractSpotifyID u = .ok (k, id)) :
    extractSpotifyID (u ++ "?".toList ++ q) = .ok (k, id) := by
  have hq : u ++ "?".toList ++ q = u ++ '?' :: q := by
    show u ++ ['?'] ++ q = u ++ '?' :: q
    simp
  rw [hq]
  rw [extractSpotifyID_ok_iff] at h ⊢
  obtain ⟨h1, h2, h3, h4⟩ := h
  obtain ⟨q0, Q, hQ⟩ := Split_query_cons q
  rw [Split_char_append, hQ]
  refine ⟨?_, scanParts_glue _ q0 Q k id h2 h3 h4, h3, h4⟩
  have hne : Split u ['/'] ≠ [] := Split_char_ne_nil _ u
  have := glue_length (Split u ['/']) (('?' :: q0) :: Q) hne
  omega

theorem extractSpotifyID_query_noise_witness :
    extractSpotifyID "https://open.spotify.com/track/4iV5W9".toList
        = .ok ("track".toList, "4iV5W9".toList) ∧
      extractSpotifyID ("https://open.spotify.com/track/4iV5W9".toList ++ "?".toList
          ++ "si=ab/cd&x=track/zz".toList) = .ok ("track".toList, "4iV5W9".toList) :=
  ⟨by decide,
    extractSpotifyID_query_noise "https://open.spotify.com/track/4iV5W9".toList
      "si=ab/cd&x=track/zz".toList "track".toList "4iV5W9".toList (by decide)⟩

theorem isSpotifyKind_ne_nil {k : Str} (h : isSpotifyKind k = true) : k ≠ [] := by
  rintro rfl
  exact absurd h (by decide)

theorem scanParts_iff (P : List Str) (k id : Str) :
    (scanParts P = (k, id) ∧ k ≠ [] ∧ id ≠ []) ↔ FirstKindPair P k id := by
  induction P with
  | nil =>
    constructor
    · rintro ⟨h, hk, -⟩
      simp only [scanParts, Prod.mk.injEq] at h
      exact absurd h.1.symm hk
    · rintro ⟨pre, nxt, post, h, -⟩
      simp at h
  | cons p P ih =>
    by_cases hp : isSpotifyKind p = true
    · simp only [scanParts, if_pos hp]
      constructor
      · rintro ⟨h, hk, hid⟩
        simp only [Prod.mk.injEq] at h
        obtain ⟨rfl, h2⟩ := h
        cases P with
        | nil => exact absurd h2.symm hid
        | cons nxt post =>
          exact ⟨[], nxt, post, rfl, by simp, hp, h2.symm, hid⟩
      · rintro ⟨pre, nxt, post, h, hpre, hk, hid, hne⟩
        cases pre with
        | nil =>
          simp only [List.nil_append, List.cons.injEq] at h
          obtain ⟨rfl, rfl⟩ := h
          exact ⟨by rw [hid], isSpotifyKind_ne_nil hk, hne⟩
        | cons a pre =>
          simp only [List.cons_append, List.cons.injEq] at h
          have := hpre a (by simp)
          rw [← h.1, hp] at this
          exact absurd this (by simp)
    · simp only [scanParts, if_neg hp]
      rw [ih]
      constructor
      · rintro ⟨pre, nxt, post, h, hpre, hk, hid, hne⟩
        refine ⟨p :: pre, nxt, post, by rw [h]; rfl, ?_, hk, hid, hne⟩
        intro a ha
        rcases List.mem_cons.mp ha with rfl | ha
        · simpa using hp
        · exact hpre a ha
      · rintro ⟨pre, nxt, post, h, hpre, hk, hid, hne⟩
        cases pre with
        | nil =>
          simp only [List.nil_append, List.cons.injEq] at h
          rw [← h.1] at hk
          exact absurd hk hp
        | cons a pre =>
          simp only [List.cons_append, List.cons.injEq] at h
          exact ⟨pre, nxt, post, h.2, fun b hb => hpre b (by simp [hb]), hk, hid, hne⟩

/-- C2 (as the code has it). `extractSpotifyID` looks only at the FIRST segment
equal to a kind token: it succeeds with `(k, id)` exactly when that first token
`k` is immediately followed by a segment whose text before the first `?` is the
non-empty `id`, and it fails exactly when there is no such first pair. -/
theorem extractSpotifyID_first_kind (u : Str) :
    (∀ k id, extractSpotifyID u = .ok (k, id) ↔ FirstKindPair (Split u "/".toList) k id) ∧
      ((∃ e, extractSpotifyID u = .error e) ↔
        ¬ ∃ k id, FirstKindPair (Split u "/".toList) k id) := by
  have hsl : "/".toList = ['/'] := rfl
  rw [hsl]
  have key : ∀ k id, extractSpotifyID u = .ok (k, id) ↔ FirstKindPair (Split u ['/']) k id := by
    intro k id
    rw [extractSpotifyID_ok_iff, ← scanParts_iff]
    constructor
    · rintro ⟨-, h⟩; exact h
    · intro h
      refine ⟨?_, h⟩
      obtain ⟨pre, nxt, post, hP, -⟩ := (scanParts_iff _ k id).mp h
      rw [hP]
      simp only [List.length_append, List.length_cons]
      omega
  refine ⟨key, ?_⟩
  constructor
  · rintro ⟨e, he⟩ ⟨k, id, hk⟩
    rw [(key k id).mpr hk] at he
    exact absurd he (by simp)
  · intro h
    cases hr : extractSpotifyID u with
    | error e => exact ⟨e, rfl⟩
    | ok r =>
      obtain ⟨k, id⟩ := r
      exact absurd ⟨k, id, (key k id).mp hr⟩ h

/-- C2, as stated, fails: `open.spotify.com/album//track/abc` has the segment
`track` followed by the non-empty `abc`, yet extraction fails, because the first
kind token, `album`, is followed by an empty segment. -/
theorem extractSpotifyID_later_pair_ignored :
    extractSpotifyID "open.spotify.com/album//track/abc".toList = .error .noSpotifyID ∧
      ∃ pre k nxt post,
        Split "open.spotify.com/album//track/abc".toList "/".toList = pre ++ k :: nxt :: post ∧
          isSpotifyKind k = true ∧ stripQuery nxt ≠ [] :=
  ⟨by decide, ["open.spotify.com".toList, "album".toList, []], "track".toList, "abc".toList, [],
    by decide, by decide, by decide⟩

/-- C3 (as the code has it). For an input without the playlist marker the source
of the identifier is chosen by substring, not by what each source yields:
* when the input contains `youtu.be/`, the identifier is the text after the first
  `youtu.be/`, up to the next `youtu.be/` and up to the first `?`; extraction fails
  when that text is empty, and the `v` query parameter is not consulted;
* otherwise, when the input contains `watch?v=`, the URL is parsed and the
  identifier is the value of the `v` query parameter; extraction fails when the
  URL does not parse or the value is empty;
* otherwise extraction fails.
A success always has kind `video`. -/
theorem extractYouTubeID_video (parse : Str → Option (Str → Str)) (u : Str)
    (hp : Contains u "playlist".toList = false) :
    (∀ pre rest, Cut "youtu.be/".toList u = some (pre, rest) →
        extractYouTubeID parse u =
          (let seg := stripQuery
              (match Cut "youtu.be/".toList rest with
                | none => rest
                | some (a, _) => a)
            if seg = [] then .error .noVideoID else .ok ("video".toList, seg))) ∧
      (Contains u "youtu.be/".toList = false → Contains u "watch?v=".toList = true →
        extractYouTubeID parse u =
          (match parse u with
            | none => .error .urlParse
            | some get =>
              if get "v".toList = [] then .error .noVideoID
              else .ok ("video".toList, get "v".toList))) ∧
      (Contains u "youtu.be/".toList = false → Contains u "watch?v=".toList = false →
        extractYouTubeID parse u = .error .noVideoID) := by
  have hsep : "youtu.be/".toList ≠ [] := by decide
  unfold extractYouTubeID
  generalize "youtu.be/".toList = sep at hsep ⊢
  generalize "watch?v=".toList = wv
  generalize "playlist".toList = pl at hp ⊢
  generalize "video".toList = vd
  generalize "v".toList = v
  refine ⟨?_, ?_, ?_⟩
  · intro pre rest hc
    have hcont : Contains u sep = true := by simp only [Contains, hc, Option.isSome_some]
    have hsplit : Split u sep = pre :: Split rest sep := by
      rw [Split_unfold hsep u, hc]
    have hhead : Split rest sep =
        (match Cut sep rest with
          | none => [rest]
          | some (a, b) => a :: Split b sep) := Split_unfold hsep rest
    simp only [hp, hcont, hsplit]
    cases hr : Cut sep rest with
    | none =>
      rw [hr] at hhead
      simp [hhead]
    | some ab =>
      obtain ⟨a, b⟩ := ab
      rw [hr] at hhead
      simp [hhead]
  · intro h1 h2
    simp only [hp, h1, h2]
    cases parse u <;> simp
  · intro h1 h2
    simp only [hp, h1, h2]
    simp

theorem extractYouTubeID_video_witness :
    extractYouTubeID urlParse "https://youtu.be/dQw4w9WgXcQ?t=42".toList
      = .ok ("video".toList, "dQw4w9WgXcQ".toList) := by
  have h := (extractYouTubeID_video urlParse "https://youtu.be/dQw4w9WgXcQ?t=42".toList
    (by decide)).1 "https://".toList "dQw4w9WgXcQ?t=42".toList (by decide)
  rw [h]
  decide

/-- C3, as stated, fails on two inputs without the playlist marker.
`https://youtu.be/?v=abc`: the short-link segment is empty and the `v` query
parameter is `abc`, yet extraction fails.
`https://www.youtube.com/watch?feature=share&v=dQw4w9WgXcQ`: there is no short
link and the `v` query parameter is `dQw4w9WgXcQ`, yet extraction fails. -/
theorem extractYouTubeID_v_parameter_not_consulted :
    (Contains "https://youtu.be/?v=abc".toList "playlist".toList = false ∧
      (urlParse "https://youtu.be/?v=abc".toList).map (fun get => get "v".toList)
        = some "abc".toList ∧
      extractYouTubeID urlParse "https://youtu.be/?v=abc".toList = .error .noVideoID) ∧
    (Contains "https://www.youtube.com/watch?feature=share&v=dQw4w9WgXcQ".toList
        "playlist".toList = false ∧
      Contains "https://www.youtube.com/watch?feature=share&v=dQw4w9WgXcQ".toList
        "youtu.be/".toList = false ∧
      (urlParse "https://www.youtube.com/watch?feature=share&v=dQw4w9WgXcQ".toList).map
        (fun get => get "v".toList) = some "dQw4w9WgXcQ".toList ∧
      extractYouTubeID urlParse
        "https://www.youtube.com/watch?feature=share&v=dQw4w9WgXcQ".toList
          = .error .noVideoID) := by
  refine ⟨⟨by decide, by decide, by decide⟩, ⟨by decide, by decide, by decide, by decide⟩⟩

/-! ## `processUrls` -/

theorem processUrls_no_panic (parse : Str → Option (Str → Str)) (urls : List Str)
    (done : List Job) (handlerFirst : Bool) (hne : urls ≠ [])
    (hp : ∀ j ∈ done, (worker parse j).result ≠ .panicked) :
    processUrls parse urls done handlerFirst = .ok (runWorkers parse done) := by
  unfold processUrls
  have h1 : ¬ urls.length = 0 := fun e => hne (List.length_eq_zero.mp e)
  rw [if_neg h1, if_neg]
  rintro ⟨hany, -⟩
  simp only [List.any_eq_true, decide_eq_true_eq] at hany
  obtain ⟨j, hj, hpan⟩ := hany
  exact hp j hj hpan

theorem processUrls_handlerFirst (parse : Str → Option (Str → Str)) (urls : List Str)
    (done : List Job) (hne : urls ≠ []) :
    processUrls parse urls done true = .ok (runWorkers parse done) := by
  unfold processUrls
  have h1 : ¬ urls.length = 0 := fun e => hne (List.length_eq_zero.mp e)
  rw [if_neg h1, if_neg]
  rintro ⟨-, h⟩
  exact absurd h (by decide)

/-- A worker hands over a record exactly when its URL is extracted and its
resolver call returns that record. -/
theorem worker_ok_iff (parse : Str → Option (Str → Str)) (j : Job) (info : TrackInfo) :
    (worker parse j).result = .ok info ↔
      (Contains j.url "spotify.com".toList = true ∧
        ∃ t id, extractSpotifyID j.url = .ok (t, id) ∧
          getSpotifyItemInfo j.upstream t id = .ok info) ∨
      (Contains j.url "spotify.com".toList = false ∧
        (Contains j.url "youtube.com".toList || Contains j.url "youtu.be".toList) = true ∧
        ∃ t id, extractYouTubeID parse j.url = .ok (t, id) ∧
          (if t = "playlist".toList then getYouTubePlaylistInfo j.upstream id
            else getYouTubeVideoInfo j.upstream id) = .ok info) := by
  unfold worker
  generalize "spotify.com".toList = sp
  generalize "youtube.com".toList = yt
  generalize "youtu.be".toList = yb
  generalize "playlist".toList = pl
  by_cases hs : Contains j.url sp = true
  · cases he : extractSpotifyID j.url with
    | error e => simp [hs]
    | ok r =>
      obtain ⟨t, id⟩ := r
      simp only [hs, if_true, true_and, Bool.true_eq_false, false_and, or_false, Except.ok.injEq,
        Prod.mk.injEq]
      constructor
      · intro h; exact ⟨t, id, ⟨rfl, rfl⟩, h⟩
      · rintro ⟨t2, id2, ⟨rfl, rfl⟩, h⟩; exact h
  · have hs2 : Contains j.url sp = false := by simpa using hs
    by_cases hy : (Contains j.url yt || Contains j.url yb) = true
    · cases he : extractYouTubeID parse j.url with
      | error e => simp [hs2, hy]
      | ok r =>
        obtain ⟨t, id⟩ := r
        by_cases hpl : t = pl
        · simp only [hs2, hy, hpl, if_true, true_and, Bool.false_eq_true, false_and, false_or,
            if_false, Except.ok.injEq, Prod.mk.injEq]
          constructor
          · intro h; exact ⟨pl, id, ⟨rfl, rfl⟩, by rw [if_pos rfl]; exact h⟩
          · rintro ⟨t2, id2, ⟨rfl, rfl⟩, h⟩; rw [if_pos rfl] at h; exact h
        · simp only [hs2, hy, hpl, if_true, true_and, Bool.false_eq_true, false_and, false_or,
            if_false, Except.ok.injEq, Prod.mk.injEq]
          constructor
          · intro h; exact ⟨t, id, ⟨rfl, rfl⟩, by rw [if_neg hpl]; exact h⟩
          · rintro ⟨t2, id2, ⟨rfl, rfl⟩, h⟩; rw [if_neg hpl] at h; exact h
    · simp [hs2, hy]

theorem worker_unsupported (parse : Str → Option (Str → Str)) (u : Str) (w : Upstream)
    (h1 : Contains u "spotify.com".toList = false)
    (h2 : Contains u "youtube.com".toList = false)
    (h3 : Contains u "youtu.be".toList = false) :
    worker parse ⟨u, w⟩ = ⟨[], .failed⟩ := by
  unfold worker
  simp only [h1, h2, h3]
  rfl

theorem resolved_append (parse : Str → Option (Str → Str)) (a b : List Job) :
    resolved parse (a ++ b) = resolved parse a ++ resolved parse b := by
  unfold resolved
  rw [List.filterMap_append]

theorem resolved_cons_failed (parse : Str → Option (Str → Str)) (j : Job) (l : List Job)
    (h : (worker parse j).result = .failed) : resolved parse (j :: l) = resolved parse l := by
  unfold resolved
  rw [List.filterMap_cons, h]

/-- C5. A URL that contains none of `spotify.com`, `youtube.com`, `youtu.be`: its
worker makes no extractor and no resolver call and yields no record, whatever is
upstream; and in every batch, wherever this worker finishes among the others,
the call ends exactly as the other workers alone make it end: the four slices
are those built from the other workers, and the reply is that response with
status 200 unless one of the other workers panics and the process ends before
the handler has written the response. -/
theorem processUrls_unsupported_url (parse : Str → Option (Str → Str)) (u : Str)
    (h1 : Contains u "spotify.com".toList = false)
    (h2 : Contains u "youtube.com".toList = false)
    (h3 : Contains u "youtu.be".toList = false) :
    (∀ w, worker parse ⟨u, w⟩ = ⟨[], .failed⟩) ∧
      ∀ (urls : List Str) (pre post : List Job) (w : Upstream) (handlerFirst : Bool),
        urls ≠ [] →
        runWorkers parse (pre ++ ⟨u, w⟩ :: post) = runWorkers parse (pre ++ post) ∧
          (∀ rest : List Str, rest ≠ [] →
            processUrls parse urls (pre ++ ⟨u, w⟩ :: post) handlerFirst
              = processUrls parse rest (pre ++ post) handlerFirst) ∧
          (((∀ j ∈ pre ++ post, (worker parse j).result ≠ .panicked) ∨ handlerFirst = true) →
            processUrls parse urls (pre ++ ⟨u, w⟩ :: post) handlerFirst
              = .ok (runWorkers parse (pre ++ post))) := by
  have hw : ∀ w, worker parse ⟨u, w⟩ = ⟨[], .failed⟩ :=
    fun w => worker_unsupported parse u w h1 h2 h3
  refine ⟨hw, ?_⟩
  intro urls pre post w handlerFirst hne
  have hrun : runWorkers parse (pre ++ ⟨u, w⟩ :: post) = runWorkers parse (pre ++ post) := by
    unfold runWorkers
    rw [resolved_append, resolved_append, resolved_cons_failed parse _ _ (by rw [hw])]
  refine ⟨hrun, ?_, ?_⟩
  · intro rest hrest
    have e1 : ¬ urls.length = 0 := fun e => hne (List.length_eq_zero.mp e)
    have e2 : ¬ rest.length = 0 := fun e => hrest (List.length_eq_zero.mp e)
    unfold processUrls
    rw [if_neg e1, if_neg e2, hrun]
    have hany : (pre ++ ⟨u, w⟩ :: post).any
          (fun j => decide ((worker parse j).result = .panicked))
        = (pre ++ post).any (fun j => decide ((worker parse j).result = .panicked)) := by
      rw [List.any_append, List.any_append, List.any_cons, hw]
      simp
    rw [hany]
  · rintro (hp | hf)
    · rw [← hrun]
      apply processUrls_no_panic parse urls _ handlerFirst hne
      intro j hj
      rcases List.mem_append.mp hj with hj | hj
      · exact hp j (List.mem_append.mpr (Or.inl hj))
      · rcases List.mem_cons.mp hj with rfl | hj
        · rw [hw]; simp
        · exact hp j (List.mem_append.mpr (Or.inr hj))
    · subst hf
      rw [← hrun]
      exact processUrls_handlerFirst parse urls _ hne

theorem processUrls_unsupported_url_witness :
    processUrls urlParse ["https://youtu.be/dQw4".toList, "ftp://example.org/a.mp3".toList]
        ([⟨"https://youtu.be/dQw4".toList, ⟨none, none⟩⟩]
          ++ ⟨"ftp://example.org/a.mp3".toList, ⟨some "k".toList, some []⟩⟩ :: []) false
      = .ok (runWorkers urlParse ([⟨"https://youtu.be/dQw4".toList, ⟨none, none⟩⟩] ++ [])) :=
  ((processUrls_unsupported_url urlParse "ftp://example.org/a.mp3".toList
      (by decide) (by decide) (by decide)).2
    ["https://youtu.be/dQw4".toList, "ftp://example.org/a.mp3".toList]
    [⟨"https://youtu.be/dQw4".toList, ⟨none, none⟩⟩] []
    ⟨some "k".toList, some []⟩ false (by decide)).2.2 (Or.inl (by decide))

theorem appendByType_fields (r : ProcessUrlsResponse) (t : TrackInfo) :
    (appendByType r t).Playlists
        = r.Playlists ++ [t].filter (fun t => decide (t.Type_ = "playlist".toList)) ∧
      (appendByType r t).Albums
        = r.Albums ++ [t].filter (fun t => decide (t.Type_ = "album".toList)) ∧
      (appendByType r t).Artists
        = r.Artists ++ [t].filter (fun t => decide (t.Type_ = "artist".toList)) ∧
      (appendByType r t).Tracks = r.Tracks ++ [t].filter goesToTracks := by
  have hpa : "playlist".toList ≠ "album".toList := by decide
  have hpr : "playlist".toList ≠ "artist".toList := by decide
  have har : "album".toList ≠ "artist".toList := by decide
  have htp : "track".toList ≠ "playlist".toList := by decide
  have hta : "track".toList ≠ "album".toList := by decide
  have htr : "track".toList ≠ "artist".toList := by decide
  unfold appendByType goesToTracks
  generalize "playlist".toList = pl at *
  generalize "album".toList = al at *
  generalize "artist".toList = ar at *
  generalize "track".toList = tr at *
  by_cases c1 : t.Type_ = tr
  · have e1 : ¬ t.Type_ = pl := fun e => htp (c1.symm.trans e)
    have e2 : ¬ t.Type_ = al := fun e => hta (c1.symm.trans e)
    have e3 : ¬ t.Type_ = ar := fun e => htr (c1.symm.trans e)
    simp [List.filter_cons, c1, e1, e2, e3, htp, hta, htr]
  · by_cases c2 : t.Type_ = pl
    · simp [List.filter_cons, c2, hpa, hpr, htp.symm]
    · by_cases c3 : t.Type_ = al
      · simp [List.filter_cons, c3, har, hpa.symm, hta.symm]
      · by_cases c4 : t.Type_ = ar
        · simp [List.filter_cons, c4, hpr.symm, har.symm, htr.symm]
        · simp [List.filter_cons, c1, c2, c3, c4]

theorem filter_cons_singleton (p : TrackInfo → Bool) (t : TrackInfo) (l : List TrackInfo) :
    (t :: l).filter p = [t].filter p ++ l.filter p := by
  rw [← List.filter_append]
  rfl

/-- The four slices are the records handed over, filtered by `Type`. -/
theorem foldl_appendByType (l : List TrackInfo) (r : ProcessUrlsResponse) :
    (l.foldl appendByType r).Playlists
        = r.Playlists ++ l.filter (fun t => decide (t.Type_ = "playlist".toList)) ∧
      (l.foldl appendByType r).Albums
        = r.Albums ++ l.filter (fun t => decide (t.Type_ = "album".toList)) ∧
      (l.foldl appendByType r).Artists
        = r.Artists ++ l.filter (fun t => decide (t.Type_ = "artist".toList)) ∧
      (l.foldl appendByType r).Tracks = r.Tracks ++ l.filter goesToTracks := by
  induction l generalizing r with
  | nil => simp
  | cons t l ih =>
    rw [List.foldl_cons]
    obtain ⟨h1, h2, h3, h4⟩ := ih (appendByType r t)
    obtain ⟨a1, a2, a3, a4⟩ := appendByType_fields r t
    rw [h1, h2, h3, h4, a1, a2, a3, a4]
    simp only [filter_cons_singleton _ t l, List.append_assoc, and_self]

theorem runWorkers_buckets (parse : Str → Option (Str → Str)) (done : List Job) :
    (runWorkers parse done).Playlists
        = (resolved parse done).filter (fun t => decide (t.Type_ = "playlist".toList)) ∧
      (runWorkers parse done).Albums
        = (resolved parse done).filter (fun t => decide (t.Type_ = "album".toList)) ∧
      (runWorkers parse done).Artists
        = (resolved parse done).filter (fun t => decide (t.Type_ = "artist".toList)) ∧
      (runWorkers parse done).Tracks = (resolved parse done).filter goesToTracks := by
  have h := foldl_appendByType (resolved parse done) ⟨[], [], [], []⟩
  simpa [runWorkers] using h

theorem getSpotifyItemInfo_ok (w : Upstream) (t id : Str) (a : TrackInfo)
    (h : getSpotifyItemInfo w t id = .ok a) :
    a.Platform = "spotify".toList ∧ a.Type_ = t := by
  unfold getSpotifyItemInfo at h
  split at h
  · exact absurd h (by simp)
  · split at h
    · exact absurd h (by simp)
    · split at h
      · exact absurd h (by simp)
      · split_ifs at h <;>
          (simp only [Resolution.ok.injEq] at h; subst h; exact ⟨rfl, rfl⟩)

theorem getYouTubeVideoInfo_ok (w : Upstream) (id : Str) (b : TrackInfo)
    (h : getYouTubeVideoInfo w id = .ok b) :
    b.Platform = "youtube".toList ∧ b.Type_ = "track".toList := by
  unfold getYouTubeVideoInfo at h
  split at h
  · exact absurd h (by simp)
  · split at h
    · exact absurd h (by simp)
    · exact absurd h (by simp)
    · split at h
      · exact absurd h (by simp)
      · split at h
        · exact absurd h (by simp)
        · simp only [Resolution.ok.injEq] at h
          subst h
          exact ⟨rfl, rfl⟩

/-- C7. The batch `open.spotify.com/track/abc`, `youtube.com/watch?v=xyz`,
`not-a-url`, with both resolver calls returning a record (`a` for Spotify, `b`
for YouTube), in whatever order the three workers finish (no worker panics
here, so the race of `handlerFirst` plays no part): the first URL is
extracted as `(track, abc)`, the second as `(video, xyz)`, the third worker makes
no call and yields nothing, and the response has exactly the two records `a`
(platform `spotify`) and `b` (platform `youtube`) in `Tracks` and empty
`Playlists`, `Albums` and `Artists`. -/
theorem processUrls_scenario (w1 w2 w3 : Upstream) (a b : TrackInfo) (done : List Job)
    (handlerFirst : Bool)
    (hdone : done.Perm
      [⟨"open.spotify.com/track/abc".toList, w1⟩, ⟨"youtube.com/watch?v=xyz".toList, w2⟩,
        ⟨"not-a-url".toList, w3⟩])
    (ha : getSpotifyItemInfo w1 "track".toList "abc".toList = .ok a)
    (hb : getYouTubeVideoInfo w2 "xyz".toList = .ok b) :
    extractSpotifyID "open.spotify.com/track/abc".toList = .ok ("track".toList, "abc".toList) ∧
      extractYouTubeID urlParse "youtube.com/watch?v=xyz".toList
        = .ok ("video".toList, "xyz".toList) ∧
      worker urlParse ⟨"not-a-url".toList, w3⟩ = ⟨[], .failed⟩ ∧
      ∃ tracks,
        processUrls urlParse
            ["open.spotify.com/track/abc".toList, "youtube.com/watch?v=xyz".toList,
              "not-a-url".toList] done handlerFirst
          = .ok ⟨tracks, [], [], []⟩ ∧
        tracks.Perm [a, b] ∧ a.Platform = "spotify".toList ∧ b.Platform = "youtube".toList := by
  have hw1 : (worker urlParse ⟨"open.spotify.com/track/abc".toList, w1⟩).result = .ok a := by
    rw [← ha]; rfl
  have hw2 : (worker urlParse ⟨"youtube.com/watch?v=xyz".toList, w2⟩).result = .ok b := by
    rw [← hb]; rfl
  have hw3 : worker urlParse ⟨"not-a-url".toList, w3⟩ = ⟨[], .failed⟩ :=
    worker_unsupported urlParse _ w3 (by decide) (by decide) (by decide)
  obtain ⟨hap, hat⟩ := getSpotifyItemInfo_ok _ _ _ _ ha
  obtain ⟨hbp, hbt⟩ := getYouTubeVideoInfo_ok _ _ _ hb
  refine ⟨by decide, by decide, hw3, ?_⟩
  have hres : (resolved urlParse done).Perm [a, b] := by
    have h1 := List.Perm.filterMap (fun j =>
      match (worker urlParse j).result with
      | .ok info => some info
      | _ => none) hdone
    have h2 : resolved urlParse
        [⟨"open.spotify.com/track/abc".toList, w1⟩, ⟨"youtube.com/watch?v=xyz".toList, w2⟩,
          ⟨"not-a-url".toList, w3⟩] = [a, b] := by
      unfold resolved
      simp only [List.filterMap_cons, List.filterMap_nil, hw1, hw2, hw3]
    rw [← h2]
    exact h1
  have hnp : ∀ j ∈ done, (worker urlParse j).result ≠ .panicked := by
    intro j hj
    have hj2 := hdone.mem_iff.mp hj
    simp only [List.mem_cons, List.mem_singleton, List.not_mem_nil, or_false] at hj2
    rcases hj2 with rfl | rfl | rfl
    · rw [hw1]; simp
    · rw [hw2]; simp
    · rw [hw3]; simp
  have hok := processUrls_no_panic urlParse
    ["open.spotify.com/track/abc".toList, "youtube.com/watch?v=xyz".toList, "not-a-url".toList]
    done handlerFirst (by decide) hnp
  obtain ⟨h1, h2, h3, h4⟩ := runWorkers_buckets urlParse done
  have htp : "track".toList ≠ "playlist".toList := by decide
  have hta : "track".toList ≠ "album".toList := by decide
  have htr : "track".toList ≠ "artist".toList := by decide
  have e1 : (runWorkers urlParse done).Playlists = [] := by
    rw [h1]
    have := List.Perm.filter (fun t : TrackInfo => decide (t.Type_ = "playlist".toList)) hres
    rw [List.filter_cons, List.filter_cons, List.filter_nil, hat, hbt] at this
    simpa [htp] using this
  have e2 : (runWorkers urlParse done).Albums = [] := by
    rw [h2]
    have := List.Perm.filter (fun t : TrackInfo => decide (t.Type_ = "album".toList)) hres
    rw [List.filter_cons, List.filter_cons, List.filter_nil, hat, hbt] at this
    simpa [hta] using this
  have e3 : (runWorkers urlParse done).Artists = [] := by
    rw [h3]
    have := List.Perm.filter (fun t : TrackInfo => decide (t.Type_ = "artist".toList)) hres
    rw [List.filter_cons, List.filter_cons, List.filter_nil, hat, hbt] at this
    simpa [htr] using this
  have e4 : ((runWorkers urlParse done).Tracks).Perm [a, b] := by
    rw [h4]
    have := List.Perm.filter goesToTracks hres
    have ga : goesToTracks a = true := by
      unfold goesToTracks; rw [hat]; simp [htp, hta, htr]
    have gb : goesToTracks b = true := by
      unfold goesToTracks; rw [hbt]; simp [htp, hta, htr]
    rw [List.filter_cons, List.filter_cons, List.filter_nil, ga, gb] at this
    simpa using this
  refine ⟨(runWorkers urlParse done).Tracks, ?_, e4, hap, hbp⟩
  rw [hok]
  congr 1
  cases hrw : runWorkers urlParse done with
  | mk T P Al Ar =>
    rw [hrw] at e1 e2 e3
    simp only at e1 e2 e3
    rw [e1, e2, e3]

theorem processUrls_scenario_witness :
    ∃ tracks,
      processUrls urlParse
          ["open.spotify.com/track/abc".toList, "youtube.com/watch?v=xyz".toList,
            "not-a-url".toList]
          [⟨"youtube.com/watch?v=xyz".toList,
              ⟨none, some [("items".toList,
                JSON.arr [JSON.obj [("snippet".toList,
                  JSON.obj [("title".toList, JSON.str "XYZ".toList)])]])]⟩⟩,
            ⟨"open.spotify.com/track/abc".toList,
              ⟨some "tok".toList, some [("name".toList, JSON.str "ABC".toList),
                ("duration_ms".toList, JSON.num 253000)]⟩⟩,
            ⟨"not-a-url".toList, ⟨none, none⟩⟩] false
        = .ok ⟨tracks, [], [], []⟩ ∧
      tracks.Perm
        [⟨"https://open.spotify.com/track/abc".toList, "ABC".toList, "spotify".toList,
            "track".toList, "4:13".toList, [], none⟩,
          ⟨"https://www.youtube.com/watch?v=xyz".toList, "XYZ".toList, "youtube".toList,
            "track".toList, [], [], none⟩] := by
  obtain ⟨tracks, h1, h2, -, -⟩ :=
    (processUrls_scenario
      ⟨some "tok".toList, some [("name".toList, JSON.str "ABC".toList),
        ("duration_ms".toList, JSON.num 253000)]⟩
      ⟨none, some [("items".toList,
        JSON.arr [JSON.obj [("snippet".toList,
          JSON.obj [("title".toList, JSON.str "XYZ".toList)])]])]⟩
      ⟨none, none⟩
      ⟨"https://open.spotify.com/track/abc".toList, "ABC".toList, "spotify".toList,
        "track".toList, "4:13".toList, [], none⟩
      ⟨"https://www.youtube.com/watch?v=xyz".toList, "XYZ".toList, "youtube".toList,
        "track".toList, [], [], none⟩
      _ false (List.Perm.swap _ _ _) (by decide) (by decide)).2.2.2
  exact ⟨tracks, h1, h2⟩

/-! ## Durations -/

/-- C8. The duration examples: 253000 milliseconds give `4:13`; the interval
values `4M13S` and `PT4M13S` give `4:13`; the interval value `45S` gives `0:45`;
and the resolvers store these texts in the `Duration` of their record. -/
theorem duration_examples :
    formatDurationMs 253000 = "4:13".toList ∧
      parseYouTubeDuration "4M13S".toList = "4:13".toList ∧
      parseYouTubeDuration "PT4M13S".toList = "4:13".toList ∧
      parseYouTubeDuration "45S".toList = "0:45".toList ∧
      getSpotifyItemInfo ⟨some "tok".toList, some [("duration_ms".toList, JSON.num 253000)]⟩
          "track".toList "abc".toList
        = .ok ⟨"https://open.spotify.com/track/abc".toList, [], "spotify".toList,
            "track".toList, "4:13".toList, [], none⟩ ∧
      getYouTubeVideoInfo
          ⟨none, some [("items".toList,
            JSON.arr [JSON.obj [("snippet".toList, JSON.obj []),
              ("contentDetails".toList,
                JSON.obj [("duration".toList, JSON.str "PT4M13S".toList)])]])]⟩
          "xyz".toList
        = .ok ⟨"https://www.youtube.com/watch?v=xyz".toList, [], "youtube".toList,
            "track".toList, "4:13".toList, [], none⟩ := by
  refine ⟨by decide, by decide, by decide, by decide, by decide, by decide⟩

theorem digitChar_isDigit (k : Nat) (h : k < 10) : (Nat.digitChar k).isDigit = true := by
  interval_cases k <;> decide

theorem toDigitsCore_isDigit (fuel : Nat) :
    ∀ (n : Nat) (ds : List Char), (∀ c ∈ ds, c.isDigit = true) →
      ∀ c ∈ Nat.toDigitsCore 10 fuel n ds, c.isDigit = true := by
  induction fuel with
  | zero => intro n ds h c hc; exact h c (by simpa [Nat.toDigitsCore] using hc)
  | succ fuel ih =>
    intro n ds h c hc
    have hd : ∀ c ∈ Nat.digitChar (n % 10) :: ds, c.isDigit = true := by
      intro c hc
      rcases List.mem_cons.mp hc with rfl | hc
      · exact digitChar_isDigit _ (Nat.mod_lt _ (by decide))
      · exact h c hc
    rw [Nat.toDigitsCore] at hc
    split_ifs at hc
    · exact hd c hc
    · exact ih _ _ hd c hc

theorem toDigits_isDigit (n : Nat) : ∀ c ∈ Nat.toDigits 10 n, c.isDigit = true :=
  toDigitsCore_isDigit _ n [] (by simp)

theorem colon_not_mem_fmtInt (n : Int) : ':' ∉ fmtInt n := by
  intro h
  unfold fmtInt at h
  split_ifs at h
  · rcases List.mem_cons.mp h with h | h
    · exact absurd h (by decide)
    · exact absurd (toDigits_isDigit _ _ h) (by decide)
  · exact absurd (toDigits_isDigit _ _ h) (by decide)

theorem fmtInt02_small : ∀ n : Nat, n < 100 →
    fmtInt02 (n : Int) = [Nat.digitChar (n / 10), Nat.digitChar (n % 10)] := by
  decide

theorem twoDigitSeconds_of_range (m sec : Int) (h0 : 0 ≤ sec) (h1 : sec ≤ 99) :
    TwoDigitSeconds (fmtInt m ++ ":".toList ++ fmtInt02 sec) := by
  obtain ⟨n, rfl⟩ := Int.eq_ofNat_of_zero_le h0
  have hn : n < 100 := by omega
  refine ⟨fmtInt m, Nat.digitChar (n / 10), Nat.digitChar (n % 10), ?_, colon_not_mem_fmtInt m,
    digitChar_isDigit _ (by omega), digitChar_isDigit _ (Nat.mod_lt _ (by decide))⟩
  rw [fmtInt02_small n hn]
  show fmtInt m ++ [':'] ++ _ = _
  simp

theorem toDigitsCore_length_ge (fuel : Nat) :
    ∀ (n : Nat) (ds : List Char), ds.length ≤ (Nat.toDigitsCore 10 fuel n ds).length := by
  induction fuel with
  | zero => intro n ds; simp [Nat.toDigitsCore]
  | succ fuel ih =>
    intro n ds
    rw [Nat.toDigitsCore]
    split_ifs
    · simp
    · have := ih (n / 10) (Nat.digitChar (n % 10) :: ds)
      simp only [List.length_cons] at this
      omega

theorem toDigits_length_pos (n : Nat) : 0 < (Nat.toDigits 10 n).length := by
  unfold Nat.toDigits
  rw [Nat.toDigitsCore]
  split_ifs
  · simp
  · have := toDigitsCore_length_ge n (n / 10) [Nat.digitChar (n % 10)]
    simp only [List.length_cons, List.length_nil] at this
    omega

/-- C9 (as the code has it). The normalized duration is
`<minutes>:<seconds>` with a seconds part of exactly two decimal digits for
every non-negative millisecond value, and for every interval string whose
seconds component reads as a value from 0 to 99.  For every interval string the
output is `%d` of the minutes, a colon, and `%02d` of the seconds, which has at
least two characters. -/
theorem duration_two_digit_seconds :
    (∀ ms : Int, 0 ≤ ms → TwoDigitSeconds (formatDurationMs ms)) ∧
      (∀ d : Str, 0 ≤ (durationParts d).2 → (durationParts d).2 ≤ 99 →
        TwoDigitSeconds (parseYouTubeDuration d)) ∧
      (∀ d : Str,
        parseYouTubeDuration d
            = fmtInt (durationParts d).1 ++ ":".toList ++ fmtInt02 (durationParts d).2 ∧
          2 ≤ (fmtInt02 (durationParts d).2).length) := by
  refine ⟨?_, ?_, ?_⟩
  · intro ms h
    unfold formatDurationMs
    have h1 : (0 : Int) ≤ Int.tmod ms 60000 := Int.tmod_nonneg _ h
    have h2 : Int.tmod ms 60000 = ms % 60000 := Int.tmod_eq_emod h (by decide)
    have h3 : Int.tdiv (Int.tmod ms 60000) 1000 = Int.tmod ms 60000 / 1000 :=
      Int.tdiv_eq_ediv h1 (by decide)
    apply twoDigitSeconds_of_range
    · rw [h3, h2]; omega
    · rw [h3, h2]; omega
  · intro d h0 h1
    exact twoDigitSeconds_of_range _ _ h0 h1
  · intro d
    refine ⟨rfl, ?_⟩
    unfold fmtInt02
    have hpos := toDigits_length_pos (durationParts d).2.natAbs
    split_ifs <;> (try simp only [List.length_cons]) <;> omega

theorem duration_two_digit_seconds_witness :
    TwoDigitSeconds (formatDurationMs 61000) ∧
      TwoDigitSeconds (parseYouTubeDuration "PT3M7S".toList) :=
  ⟨duration_two_digit_seconds.1 61000 (by decide),
    duration_two_digit_seconds.2.1 "PT3M7S".toList (by decide) (by decide)⟩

/-- C9, as stated, fails: the interval `PT100S` is normalized to `0:100`, with a
seconds part of three digits, and the millisecond value `-5000` to `0:-5`, with
a seconds part that is not two digits. -/
theorem duration_seconds_not_two_digits :
    parseYouTubeDuration "PT100S".toList = "0:100".toList ∧
      ¬ TwoDigitSeconds (parseYouTubeDuration "PT100S".toList) ∧
      formatDurationMs (-5000) = "0:-5".toList ∧
      ¬ TwoDigitSeconds (formatDurationMs (-5000)) := by
  have e1 : parseYouTubeDuration "PT100S".toList = ['0', ':'] ++ ['1', '0', '0'] := by decide
  have e2 : formatDurationMs (-5000) = ['0'] ++ [':', '-', '5'] := by decide
  refine ⟨by decide, ?_, by decide, ?_⟩
  · rintro ⟨m, d1, d2, h, hm, -, -⟩
    rw [e1] at h
    have := (List.append_inj' h rfl).1
    rw [← this] at hm
    exact hm (by decide)
  · rintro ⟨m, d1, d2, h, -, hd1, -⟩
    rw [e2] at h
    have := (List.append_inj' h rfl).2
    simp only [List.cons.injEq, and_true, true_and] at this
    rw [← this.1] at hd1
    exact absurd hd1 (by decide)

/-! ## The token cache -/

/-- C10 (as the code has it). When `getAccessToken("spotify")` returns a
credential without error: if it was served from the cache, the recorded expiry
is strictly later than the clock reading of the call and the cache is
unchanged; if it was refreshed, the recorded expiry is the clock reading plus
the declared lifetime, which is strictly later than the clock reading exactly
when that lifetime (`expires_in` seconds as a `time.Duration`) is positive, in
particular whenever `0 < expires_in ≤ 9223372036`. -/
theorem getAccessToken_expiry (g g' : Globals) (now later : Int) (issuance : Issuance)
    (tok : Str) (h : getAccessToken "spotify".toList g now later issuance = (.ok tok, g')) :
    (g.cachedToken ≠ [] ∧ now < g.tokenExpiry →
        tok = g.cachedToken ∧ g'.cachedToken = g.cachedToken ∧ g'.tokenExpiry = g.tokenExpiry ∧
          now < g'.tokenExpiry) ∧
      (¬ (g.cachedToken ≠ [] ∧ now < g.tokenExpiry) →
        ∃ t, issuance = .decoded t ∧ tok = t.AccessToken ∧ g'.cachedToken = tok ∧
          g'.tokenExpiry = later + wrapInt64 (t.ExpiresIn * 1000000000) ∧
          (later < g'.tokenExpiry ↔ 0 < wrapInt64 (t.ExpiresIn * 1000000000)) ∧
          (0 < t.ExpiresIn → t.ExpiresIn ≤ 9223372036 → later < g'.tokenExpiry)) := by
  unfold getAccessToken at h
  rw [if_pos rfl] at h
  constructor
  · intro hc
    rw [if_pos hc] at h
    simp only [Prod.mk.injEq, Except.ok.injEq] at h
    obtain ⟨h1, h2⟩ := h
    subst h2
    exact ⟨h1.symm, rfl, rfl, hc.2⟩
  · intro hc
    rw [if_neg hc] at h
    cases issuance with
    | requestError => simp at h
    | transportError => simp at h
    | decodeError => simp at h
    | decoded t =>
      simp only [Prod.mk.injEq, Except.ok.injEq] at h
      obtain ⟨h1, h2⟩ := h
      subst h2
      refine ⟨t, rfl, h1.symm, h1, rfl, ?_, ?_⟩
      · simp only
        constructor <;> intro h <;> omega
      · intro h0 h9
        simp only
        have : wrapInt64 (t.ExpiresIn * 1000000000) = t.ExpiresIn * 1000000000 := by
          unfold wrapInt64
          omega
        rw [this]
        omega

theorem getAccessToken_expiry_witness :
    (getAccessToken "spotify".toList ⟨[], [], 0⟩ 900 1000 (.decoded ⟨"BQD".toList, 3600⟩)).1
        = .ok "BQD".toList ∧
      (1000 : Int) <
        (getAccessToken "spotify".toList ⟨[], [], 0⟩ 900 1000
          (.decoded ⟨"BQD".toList, 3600⟩)).2.tokenExpiry := by
  obtain ⟨t, ht, -, -, -, -, h⟩ :=
    (getAccessToken_expiry ⟨[], [], 0⟩
      (getAccessToken "spotify".toList ⟨[], [], 0⟩ 900 1000 (.decoded ⟨"BQD".toList, 3600⟩)).2
      900 1000 (.decoded ⟨"BQD".toList, 3600⟩) "BQD".toList rfl).2 (by decide)
  cases ht
  exact ⟨rfl, h (by decide) (by decide)⟩

/-- C10, as stated, fails: with an empty cache and an issuance response that
declares `expires_in = 0`, `getAccessToken("spotify")` returns the credential
without error and records an expiry equal to the clock reading, not later. -/
theorem getAccessToken_zero_lifetime_stale :
    (getAccessToken "spotify".toList ⟨[], [], 0⟩ 900 1000 (.decoded ⟨"BQD".toList, 0⟩)).1
        = .ok "BQD".toList ∧
      (getAccessToken "spotify".toList ⟨[], [], 0⟩ 900 1000
        (.decoded ⟨"BQD".toList, 0⟩)).2.tokenExpiry = 1000 ∧
      ¬ ((1000 : Int) <
        (getAccessToken "spotify".toList ⟨[], [], 0⟩ 900 1000
          (.decoded ⟨"BQD".toList, 0⟩)).2.tokenExpiry) := by
  refine ⟨by decide, by decide, by decide⟩

theorem getAccessToken_from_cache (g : Globals) (now later : Int) (issuance : Issuance)
    (h1 : g.cachedToken ≠ []) (h2 : now < g.tokenExpiry) :
    getAccessToken "spotify".toList g now later issuance = (.ok g.cachedToken, g) := by
  unfold getAccessToken
  rw [if_pos rfl, if_pos ⟨h1, h2⟩]

theorem getAccessToken_refreshed (g g1 : Globals) (now later : Int) (issuance : Issuance)
    (tok : Str) (hrefresh : ¬ (g.cachedToken ≠ [] ∧ now < g.tokenExpiry))
    (h : getAccessToken "spotify".toList g now later issuance = (.ok tok, g1)) :
    g1.cachedToken = tok := by
  unfold getAccessToken at h
  rw [if_pos rfl, if_neg hrefresh] at h
  cases issuance with
  | requestError => simp at h
  | transportError => simp at h
  | decodeError => simp at h
  | decoded t =>
    simp only [Prod.mk.injEq, Except.ok.injEq] at h
    obtain ⟨h1, h2⟩ := h
    subst h2
    exact h1

/-- C11 (as the code has it). After a `getAccessToken("spotify")` call that
refreshed the cache and returned a non-empty credential, every further
`getAccessToken("spotify")` call whose clock reading is before the stored expiry
returns that same credential and leaves `cachedToken` and `tokenExpiry` as they
are, whatever its token request would have met, an error included: no request
is made.  The same holds for any number of such calls made one after the
other. -/
theorem getAccessToken_reuses_cache (g g1 : Globals) (now later : Int) (issuance : Issuance)
    (tok : Str) (hrefresh : ¬ (g.cachedToken ≠ [] ∧ now < g.tokenExpiry))
    (h : getAccessToken "spotify".toList g now later issuance = (.ok tok, g1))
    (htok : tok ≠ []) :
    (∀ (now2 later2 : Int) (issuance2 : Issuance), now2 < g1.tokenExpiry →
        getAccessToken "spotify".toList g1 now2 later2 issuance2 = (.ok tok, g1)) ∧
      ∀ calls : List (Int × Int × Issuance), (∀ c ∈ calls, c.1 < g1.tokenExpiry) →
        getAccessTokenCalls "spotify".toList g1 calls
          = (List.replicate calls.length (.ok tok), g1) := by
  have hc := getAccessToken_refreshed g g1 now later issuance tok hrefresh h
  have one : ∀ (now2 later2 : Int) (issuance2 : Issuance), now2 < g1.tokenExpiry →
      getAccessToken "spotify".toList g1 now2 later2 issuance2 = (.ok tok, g1) := by
    intro now2 later2 issuance2 hlt
    rw [getAccessToken_from_cache g1 now2 later2 issuance2 (by rw [hc]; exact htok) hlt, hc]
  refine ⟨one, ?_⟩
  intro calls
  induction calls with
  | nil => intro _; rfl
  | cons c rest ih =>
    intro hall
    obtain ⟨now2, later2, issuance2⟩ := c
    have h1 := one now2 later2 issuance2 (hall _ (List.mem_cons_self _ _))
    have h2 := ih (fun c hc => hall c (List.mem_cons_of_mem _ hc))
    simp only [getAccessTokenCalls, h1, h2, List.length_cons, List.replicate_succ]

theorem getAccessToken_reuses_cache_witness :
    getAccessToken "spotify".toList
        (getAccessToken "spotify".toList ⟨[], [], 0⟩ 900 1000
          (.decoded ⟨"BQD".toList, 3600⟩)).2
        5000 6000 .transportError
      = (.ok "BQD".toList,
          (getAccessToken "spotify".toList ⟨[], [], 0⟩ 900 1000
            (.decoded ⟨"BQD".toList, 3600⟩)).2) :=
  (getAccessToken_reuses_cache ⟨[], [], 0⟩ _ 900 1000 (.decoded ⟨"BQD".toList, 3600⟩)
    "BQD".toList (by decide) rfl (by decide)).1 5000 6000 .transportError (by decide)

/-- C11, as stated, fails: a refresh whose issuance response holds an empty
`access_token` (with `expires_in = 3600`) returns without error, and a further
call made before the stored expiry makes a new token request: it returns the
newly issued credential and replaces the cache, and returns an error when that
request fails. -/
theorem getAccessToken_empty_credential_refreshed_again :
    (getAccessToken "spotify".toList ⟨[], [], 0⟩ 900 1000 (.decoded ⟨[], 3600⟩)).1 = .ok [] ∧
      (2000 : Int) <
        (getAccessToken "spotify".toList ⟨[], [], 0⟩ 900 1000
          (.decoded ⟨[], 3600⟩)).2.tokenExpiry ∧
      (getAccessToken "spotify".toList
          (getAccessToken "spotify".toList ⟨[], [], 0⟩ 900 1000 (.decoded ⟨[], 3600⟩)).2
          2000 2100 (.decoded ⟨"NEW".toList, 3600⟩)).1 = .ok "NEW".toList ∧
      (getAccessToken "spotify".toList
          (getAccessToken "spotify".toList ⟨[], [], 0⟩ 900 1000 (.decoded ⟨[], 3600⟩)).2
          2000 2100 (.decoded ⟨"NEW".toList, 3600⟩)).2.cachedToken = "NEW".toList ∧
      (getAccessToken "spotify".toList
          (getAccessToken "spotify".toList ⟨[], [], 0⟩ 900 1000 (.decoded ⟨[], 3600⟩)).2
          2000 2100 .transportError).1 = .error .transport := by
  refine ⟨by decide, by decide, by decide, by decide, by decide⟩

/-! ## Provider selection -/

theorem worker_spotify (parse : Str → Option (Str → Str)) (j : Job)
    (hs : Contains j.url "spotify.com".toList = true) :
    worker parse j =
      (match extractSpotifyID j.url with
        | .error _ => ⟨[.extractSpotifyID j.url], .failed⟩
        | .ok (itemType, itemID) =>
          ⟨[.extractSpotifyID j.url, .getSpotifyItemInfo itemType itemID],
            getSpotifyItemInfo j.upstream itemType itemID⟩) := by
  unfold worker
  rw [if_pos hs]

/-- C15. Provider selection in `processUrls` is by substring, Spotify first: the
worker of every URL that contains `spotify.com` calls `extractSpotifyID` and, on
success, `getSpotifyItemInfo`, and nothing else; it never calls
`extractYouTubeID` or a YouTube resolver, whatever `extractYouTubeID` would
return for that URL.  When `extractSpotifyID` fails the worker stops after that
one call and hands over no record, so the URL is dropped from the batch. -/
theorem processUrls_spotify_priority (parse : Str → Option (Str → Str)) (j : Job)
    (hs : Contains j.url "spotify.com".toList = true) :
    (∀ c ∈ (worker parse j).calls,
        c = .extractSpotifyID j.url ∨ ∃ t id, c = .getSpotifyItemInfo t id) ∧
      (∀ u, Call.extractYouTubeID u ∉ (worker parse j).calls) ∧
      (∀ e, extractSpotifyID j.url = .error e →
        worker parse j = ⟨[.extractSpotifyID j.url], .failed⟩ ∧
          ∀ pre post : List Job,
            resolved parse (pre ++ j :: post) = resolved parse (pre ++ post) ∧
              runWorkers parse (pre ++ j :: post) = runWorkers parse (pre ++ post)) := by
  have hw := worker_spotify parse j hs
  have hcalls : ∀ c ∈ (worker parse j).calls,
      c = .extractSpotifyID j.url ∨ ∃ t id, c = .getSpotifyItemInfo t id := by
    intro c hc
    rw [hw] at hc
    cases he : extractSpotifyID j.url with
    | error e =>
      rw [he] at hc
      simp only [List.mem_singleton] at hc
      exact Or.inl hc
    | ok r =>
      obtain ⟨t, id⟩ := r
      rw [he] at hc
      simp only [List.mem_cons, List.mem_singleton, List.not_mem_nil, or_false] at hc
      rcases hc with hc | hc
      · exact Or.inl hc
      · exact Or.inr ⟨t, id, hc⟩
  refine ⟨hcalls, ?_, ?_⟩
  · intro u hu
    rcases hcalls _ hu with h | ⟨t, id, h⟩
    · exact absurd h (by simp)
    · exact absurd h (by simp)
  · intro e he
    have hfail : worker parse j = ⟨[.extractSpotifyID j.url], .failed⟩ := by
      rw [hw, he]
    refine ⟨hfail, ?_⟩
    intro pre post
    have hres : resolved parse (pre ++ j :: post) = resolved parse (pre ++ post) := by
      rw [resolved_append, resolved_append, resolved_cons_failed parse _ _ (by rw [hfail])]
    exact ⟨hres, by unfold runWorkers; rw [hres]⟩

theorem processUrls_spotify_priority_witness :
    extractYouTubeID urlParse "https://www.youtube.com/watch?v=dQw4&ref=spotify.com".toList
        = .ok ("video".toList, "dQw4".toList) ∧
      worker urlParse
          ⟨"https://www.youtube.com/watch?v=dQw4&ref=spotify.com".toList,
            ⟨none, some [("items".toList,
              JSON.arr [JSON.obj [("snippet".toList, JSON.obj [])]])]⟩⟩
        = ⟨[.extractSpotifyID "https://www.youtube.com/watch?v=dQw4&ref=spotify.com".toList],
            .failed⟩ :=
  ⟨by decide,
    ((processUrls_spotify_priority urlParse
      ⟨"https://www.youtube.com/watch?v=dQw4&ref=spotify.com".toList,
        ⟨none, some [("items".toList,
          JSON.arr [JSON.obj [("snippet".toList, JSON.obj [])]])]⟩⟩
      (by decide)).2.2 .noSpotifyID (by decide)).1⟩

/-! ## `search`: sanitization -/

theorem JMap_get_delete_self (m : JMap) (key : Str) : (m.delete key).get key = none := by
  unfold JMap.get JMap.delete
  have : (List.filter (fun kv : Str × JSON => !(kv.1 == key)) m).find?
      (fun kv => kv.1 == key) = none := by
    rw [List.find?_eq_none]
    intro x hx
    have := (List.mem_filter.mp hx).2
    simpa using this
  rw [this]

theorem JMap_get_delete_ne (m : JMap) (key k : Str) (h : k ≠ key) :
    (m.delete key).get k = m.get k := by
  unfold JMap.get JMap.delete
  have : (List.filter (fun kv : Str × JSON => !(kv.1 == key)) m).find? (fun kv => kv.1 == k)
      = m.find? (fun kv => kv.1 == k) := by
    induction m with
    | nil => rfl
    | cons x m ih =>
      by_cases hx : (x.1 == key) = true
      · have hk : (x.1 == k) = false := by
          rw [beq_eq_false_iff_ne]
          exact fun e => h (e.symm.trans (beq_iff_eq.mp hx))
        rw [List.filter_cons, List.find?_cons]
        simp only [hx, hk, Bool.not_true, Bool.false_eq_true, if_false]
        exact ih
      · have hx2 : (x.1 == key) = false := by simpa using hx
        rw [List.filter_cons, List.find?_cons]
        simp only [hx2, Bool.not_false, if_true, List.find?_cons, ih]
  rw [this]

theorem sanitizeItem_keysToRemove (item : JMap) :
    sanitizeItem item keysToRemove = item.delete "available_markets".toList := rfl

theorem mem_formatItems (itemsRaw : List JSON) (it : JSON) (h : it ∈ formatItems itemsRaw) :
    ∃ upstream : JMap, JSON.obj upstream ∈ itemsRaw ∧
      it = JSON.obj (sanitizeItem upstream keysToRemove) := by
  unfold formatItems at h
  obtain ⟨raw, hraw, hm⟩ := List.mem_filterMap.mp h
  cases raw with
  | obj f =>
    simp only [asMap, Option.some.injEq] at hm
    exact ⟨f, hraw, hm.symm⟩
  | null => simp [asMap] at hm
  | bool b => simp [asMap] at hm
  | num n => simp [asMap] at hm
  | str s => simp [asMap] at hm
  | arr l => simp [asMap] at hm

theorem mem_JMap_set (m : JMap) (key : Str) (v : JSON) (e : Str × JSON)
    (h : e ∈ m.set key v) : e = (key, v) ∨ e ∈ m := by
  unfold JMap.set JMap.delete at h
  rcases List.mem_cons.mp h with h | h
  · exact Or.inl h
  · exact Or.inr (List.mem_filter.mp h).1

theorem searchSpotifyRound_stored (parse : Str → Option (Str → Str)) (escapedQuery : Str)
    (limitSpotify offsetSpotify : Int) (responses : Nat → Option JMap) (i : Nat)
    (st st1 : SpotifyUnit) (rawType : Str)
    (hst : ∀ e ∈ st.spotifyResult, StoredItems responses e)
    (h : searchSpotifyRound parse escapedQuery limitSpotify offsetSpotify st rawType
      (responses i) = some st1) :
    ∀ e ∈ st1.spotifyResult, StoredItems responses e := by
  unfold searchSpotifyRound at h
  simp only at h
  split_ifs at h
  · simp only [Option.some.injEq] at h; subst h; exact hst
  · split at h
    · exact absurd h (by simp)
    · split at h
      · simp only [Option.some.injEq] at h; subst h; exact hst
      · rename_i result hresp
        split at h
        · simp only [Option.some.injEq] at h; subst h; exact hst
        · rename_i endpointData hdata
          split at h
          · simp only [Option.some.injEq] at h; subst h; exact hst
          · rename_i itemsRaw hitems
            simp only [Option.some.injEq] at h
            subst h
            intro e he
            rcases mem_JMap_set _ _ _ _ he with rfl | he
            · exact ⟨i, result, endpointData, itemsRaw, hresp, hdata, hitems, rfl⟩
            · exact hst e he

theorem searchSpotifyLoop_stored (parse : Str → Option (Str → Str)) (escapedQuery : Str)
    (limitSpotify offsetSpotify : Int) (responses : Nat → Option JMap) (types : List Str) :
    ∀ (i : Nat) (st : SpotifyUnit),
      (∀ e ∈ st.spotifyResult, StoredItems responses e) →
      ∀ e ∈ (searchSpotifyLoop parse escapedQuery limitSpotify offsetSpotify responses i types
          st).1.spotifyResult,
        StoredItems responses e := by
  induction types with
  | nil =>
    intro i st hst
    simpa only [searchSpotifyLoop] using hst
  | cons t rest ih =>
    intro i st hst
    simp only [searchSpotifyLoop]
    split
    · exact hst
    · rename_i st2 hround
      exact ih (i + 1) st2
        (searchSpotifyRound_stored parse escapedQuery limitSpotify offsetSpotify responses i st
          st2 t hst hround)

theorem searchSpotifyRound_isSome (parse : Str → Option (Str → Str)) (escapedQuery : Str)
    (limitSpotify offsetSpotify : Int) (st : SpotifyUnit) (rawType : Str)
    (response : Option JMap) (hparse : ∀ u, parse u ≠ none) :
    ∃ st1, searchSpotifyRound parse escapedQuery limitSpotify offsetSpotify st rawType response
      = some st1 := by
  unfold searchSpotifyRound
  simp only
  split_ifs
  · exact ⟨_, rfl⟩
  · split
    · rename_i hp; exact absurd hp (hparse _)
    · split
      · exact ⟨_, rfl⟩
      · split
        · exact ⟨_, rfl⟩
        · split
          · exact ⟨_, rfl⟩
          · exact ⟨_, rfl⟩

theorem searchSpotifyLoop_no_panic (parse : Str → Option (Str → Str)) (escapedQuery : Str)
    (limitSpotify offsetSpotify : Int) (responses : Nat → Option JMap)
    (hparse : ∀ u, parse u ≠ none) (types : List Str) :
    ∀ (i : Nat) (st : SpotifyUnit),
      (searchSpotifyLoop parse escapedQuery limitSpotify offsetSpotify responses i types st).2
        = false := by
  induction types with
  | nil => intro i st; rfl
  | cons t rest ih =>
    intro i st
    obtain ⟨st2, h2⟩ := searchSpotifyRound_isSome parse escapedQuery limitSpotify offsetSpotify
      st t (responses i) hparse
    simp only [searchSpotifyLoop, h2]
    exact ih (i + 1) st2

/-- C12. The Spotify part of every `search` response that is written (one is
written when `http.NewRequest` accepts every search URL, and also when the
goroutine panics but the handler writes the response before the process ends):
every entry other than `pagination` is, for some response, the list of the
object elements of that response's `items`, each with the top-level key
`available_markets` deleted.  So no stored item has an `available_markets`
field, whether or not the upstream item had one, and every other field of a
stored item is the field of the upstream item, unchanged. -/
theorem searchSpotify_sanitized (parse : Str → Option (Str → Str)) (token : Option Str)
    (escapedQuery spotifyTypeParam spotifyLimitParam spotifyOffsetParam : Str)
    (responses : Nat → Option JMap) (handlerFirst : Bool) :
    (((∀ u, parse u ≠ none) ∨ handlerFirst = true) →
        ∃ res, searchSpotify parse token escapedQuery spotifyTypeParam spotifyLimitParam
          spotifyOffsetParam responses handlerFirst = some res) ∧
      ∀ res, searchSpotify parse token escapedQuery spotifyTypeParam spotifyLimitParam
          spotifyOffsetParam responses handlerFirst = some res →
        (∀ e ∈ res,
          (e.1 = "pagination".toList ∧ ∃ fields, e.2 = .obj fields) ∨
            StoredItems responses e) ∧
        ∀ key items, (key, JSON.arr items) ∈ res → ∀ it ∈ items,
          ∃ stored upstream : JMap, it = .obj stored ∧
            stored.get "available_markets".toList = none ∧
            (∀ k, k ≠ "available_markets".toList → stored.get k = upstream.get k) ∧
            ∃ i result endpointData itemsRaw, responses i = some result ∧
              asMap (result.get key) = some endpointData ∧
              asArray (endpointData.get "items".toList) = some itemsRaw ∧
              JSON.obj upstream ∈ itemsRaw := by
  have hstored := searchSpotifyLoop_stored parse escapedQuery
    (spotifyLimit spotifyLimitParam) (spotifyOffset spotifyOffsetParam) responses
    (Split spotifyTypeParam ",".toList) 0
    ⟨[], ⟨0, 0, 0, 0, false, false, false, false, false, false, false, false⟩⟩
    (fun e he => absurd he (List.not_mem_nil _))
  constructor
  · intro hor
    unfold searchSpotify
    cases token with
    | none => exact ⟨_, rfl⟩
    | some tok =>
      simp only
      split
      · rename_i st hloop
        rcases hor with hparse | hf
        · have := searchSpotifyLoop_no_panic parse escapedQuery
            (spotifyLimit spotifyLimitParam) (spotifyOffset spotifyOffsetParam) responses hparse
            (Split spotifyTypeParam ",".toList) 0
            ⟨[], ⟨0, 0, 0, 0, false, false, false, false, false, false, false, false⟩⟩
          rw [hloop] at this
          exact absurd this (by simp)
        · subst hf
          exact ⟨_, rfl⟩
      · exact ⟨_, rfl⟩
  · intro res h
    have hentries : ∀ e ∈ res,
        (e.1 = "pagination".toList ∧ ∃ fields, e.2 = .obj fields) ∨ StoredItems responses e := by
      unfold searchSpotify at h
      cases token with
      | none =>
        simp only [Option.some.injEq] at h
        subst h
        intro e he
        exact absurd he (List.not_mem_nil _)
      | some tok =>
        simp only at h
        split at h
        · rename_i st hloop
          rw [hloop] at hstored
          split_ifs at h
          simp only [Option.some.injEq] at h
          subst h
          intro e he
          exact Or.inr (hstored e he)
        · rename_i st hloop
          rw [hloop] at hstored
          simp only [Option.some.injEq] at h
          subst h
          intro e he
          rcases mem_JMap_set _ _ _ _ he with rfl | he
          · exact Or.inl ⟨rfl, _, rfl⟩
          · exact Or.inr (hstored e he)
    refine ⟨hentries, ?_⟩
    intro key items hmem it hit
    rcases hentries _ hmem with ⟨-, fields, hf⟩ | ⟨i, result, endpointData, itemsRaw, h1, h2, h3, h4⟩
    · exact absurd hf (by simp)
    · simp only [JSON.arr.injEq] at h4
      rw [h4] at hit
      obtain ⟨upstream, hup, rfl⟩ := mem_formatItems itemsRaw it hit
      refine ⟨_, upstream, rfl, ?_, ?_, i, result, endpointData, itemsRaw, h1, h2, h3, hup⟩
      · rw [sanitizeItem_keysToRemove]
        exact JMap_get_delete_self _ _
      · intro k hk
        rw [sanitizeItem_keysToRemove]
        exact JMap_get_delete_ne _ _ _ hk

set_option maxRecDepth 20000 in
theorem searchSpotify_sanitized_witness :
    (∃ res, searchSpotify (fun _ => some (fun _ => [])) (some "tok".toList) "daft+punk".toList
        "track".toList "5".toList "0".toList
        (fun _ => some [("tracks".toList,
          JSON.obj [("items".toList,
            JSON.arr [JSON.obj [("name".toList, JSON.str "One".toList),
              ("available_markets".toList, JSON.arr [JSON.str "BR".toList])]])])]) false
      = some res) ∧
    ∃ stored upstream : JMap,
      JSON.obj [("name".toList, JSON.str "One".toList)] = JSON.obj stored ∧
      stored.get "available_markets".toList = none ∧
      (∀ k, k ≠ "available_markets".toList → stored.get k = upstream.get k) ∧
      ∃ (i : Nat) (result endpointData : JMap) (itemsRaw : List JSON),
        (fun _ : Nat => some [("tracks".toList,
          JSON.obj [("items".toList,
            JSON.arr [JSON.obj [("name".toList, JSON.str "One".toList),
              ("available_markets".toList, JSON.arr [JSON.str "BR".toList])]])])]) i
          = some result ∧
        asMap (result.get "tracks".toList) = some endpointData ∧
        asArray (endpointData.get "items".toList) = some itemsRaw ∧
        JSON.obj upstream ∈ itemsRaw :=
  ⟨(searchSpotify_sanitized (fun _ => some (fun _ => [])) (some "tok".toList)
      "daft+punk".toList "track".toList "5".toList "0".toList
      (fun _ => some [("tracks".toList,
        JSON.obj [("items".toList,
          JSON.arr [JSON.obj [("name".toList, JSON.str "One".toList),
            ("available_markets".toList, JSON.arr [JSON.str "BR".toList])]])])]) false).1
      (Or.inl (fun _ => by simp)),
    ((searchSpotify_sanitized urlParse (some "tok".toList)
      "daft+punk".toList "track,al#%zz".toList "5".toList "0".toList
      (fun _ => some [("tracks".toList,
        JSON.obj [("items".toList,
          JSON.arr [JSON.obj [("name".toList, JSON.str "One".toList),
            ("available_markets".toList, JSON.arr [JSON.str "BR".toList])]])])]) true).2
      _ rfl).2 "tracks".toList [JSON.obj [("name".toList, JSON.str "One".toList)]]
        (List.mem_cons_self _ _) _ (List.mem_cons_self _ _)⟩

/-! ## `downloadMusic` -/

theorem isCompletionLine_chunkLine (urlStr text : Str) :
    isCompletionLine (chunkLine urlStr text) = false := by
  rfl

theorem isCompletionLine_failedToStartLine (urlStr : Str) :
    isCompletionLine (failedToStartLine urlStr) = true := by
  have : HasPrefix (failedToStartLine urlStr) "Failed to start download for URL ".toList
      = true := by
    unfold HasPrefix failedToStartLine
    rw [List.isPrefixOf_iff_prefix, List.append_assoc]
    exact List.prefix_append _ _
  unfold isCompletionLine
  rw [this]
  rfl

theorem isCompletionLine_downloadFailedLine (urlStr err : Str) :
    isCompletionLine (downloadFailedLine urlStr err) = true := by
  have : HasPrefix (downloadFailedLine urlStr err) "Download failed for URL ".toList = true := by
    unfold HasPrefix downloadFailedLine
    rw [List.isPrefixOf_iff_prefix, List.append_assoc, List.append_assoc, List.append_assoc]
    exact List.prefix_append _ _
  unfold isCompletionLine
  rw [this]
  simp

theorem isCompletionLine_completedLine (urlStr : Str) :
    isCompletionLine (completedLine urlStr) = true := by
  have : HasPrefix (completedLine urlStr) "Download completed successfully for URL ".toList
      = true := by
    unfold HasPrefix completedLine
    rw [List.isPrefixOf_iff_prefix, List.append_assoc]
    exact List.prefix_append _ _
  unfold isCompletionLine
  rw [this]
  simp

theorem scanLoop_no_completion (urlStr : Str) (output : List (Str × Bool)) :
    (scanLoop urlStr output).1.countP isCompletionLine = 0 := by
  induction output with
  | nil => rfl
  | cons p rest ih =>
    obtain ⟨text, written⟩ := p
    cases written with
    | false => simp [scanLoop]
    | true =>
      simp only [scanLoop, if_true, List.countP_cons, ih, isCompletionLine_chunkLine]
      simp

theorem scanLoop_all_written (urlStr : Str) (output : List (Str × Bool))
    (h : ∀ p ∈ output, p.2 = true) :
    scanLoop urlStr output = (output.map (fun p => chunkLine urlStr p.1), true) := by
  induction output with
  | nil => rfl
  | cons p rest ih =>
    obtain ⟨text, written⟩ := p
    have hw : written = true := h (text, written) (List.mem_cons_self _ _)
    subst hw
    have := ih (fun p hp => h p (List.mem_cons_of_mem _ hp))
    simp only [scanLoop, if_true, this, List.map_cons]

theorem scanLoop_snd (urlStr : Str) (output : List (Str × Bool)) :
    (scanLoop urlStr output).2 = output.all (fun p => p.2) := by
  induction output with
  | nil => rfl
  | cons p rest ih =>
    obtain ⟨text, written⟩ := p
    cases written with
    | false => simp [scanLoop]
    | true => simp only [scanLoop, if_true, ih, List.all_cons, Bool.true_and]

theorem scanLoop_failed_write (urlStr : Str) (pre : List (Str × Bool)) (text : Str)
    (rest : List (Str × Bool)) (h : ∀ p ∈ pre, p.2 = true) :
    scanLoop urlStr (pre ++ (text, false) :: rest)
      = (pre.map (fun p => chunkLine urlStr p.1), false) := by
  induction pre with
  | nil => simp [scanLoop]
  | cons p pre ih =>
    obtain ⟨t, written⟩ := p
    have hw : written = true := h (t, written) (List.mem_cons_self _ _)
    subst hw
    have hrec : scanLoop urlStr (pre.append ((text, false) :: rest))
        = (pre.map (fun p => chunkLine urlStr p.1), false) :=
      ih (fun p hp => h p (List.mem_cons_of_mem _ hp))
    simp only [List.cons_append, scanLoop, if_true, hrec, List.map_cons]

/-- C13 (as the code has it). A worker of `downloadMusic` writes its lines of
subprocess output, each marked with its URL, and then one completion line that
names its URL:
* when the output pipe cannot be set up or the process cannot start, the only
  line is `Failed to start download for URL <url>`, which does not carry the
  error text;
* when the process ran and every write of an output line succeeded, the last
  line is `Download completed successfully for URL <url>` for exit status zero
  and `Download failed for URL <url>: <error text>` otherwise.
In these cases exactly one line of the worker is a completion line.  When a
write of an output line fails the worker returns at once: its lines are the
output lines written before the failed write and none of them is a completion
line, whatever the exit status would have been.  In every case the worker
writes at most one completion line. -/
theorem downloadWorker_completion (urlStr : Str) (o : ProcOutcome) :
    (∀ err, downloadWorker urlStr (.stdoutPipeFailed err) = [failedToStartLine urlStr] ∧
        downloadWorker urlStr (.stderrPipeFailed err) = [failedToStartLine urlStr] ∧
        downloadWorker urlStr (.startFailed err) = [failedToStartLine urlStr]) ∧
      (∀ output waitErr, (∀ p ∈ output, p.2 = true) →
        downloadWorker urlStr (.ran output waitErr)
          = output.map (fun p => chunkLine urlStr p.1) ++
            [waitLine urlStr waitErr]) ∧
      (o.writesSucceed = true → (downloadWorker urlStr o).countP isCompletionLine = 1) ∧
      (downloadWorker urlStr o).countP isCompletionLine ≤ 1 ∧
      (∀ pre text rest waitErr, (∀ p ∈ pre, p.2 = true) →
        downloadWorker urlStr (.ran (pre ++ (text, false) :: rest) waitErr)
          = pre.map (fun p => chunkLine urlStr p.1)) ∧
      (o.writesSucceed = false → (downloadWorker urlStr o).countP isCompletionLine = 0) := by
  have hfinal : ∀ waitErr : Option Str,
      isCompletionLine (waitLine urlStr waitErr) = true := by
    intro waitErr
    cases waitErr with
    | none => exact isCompletionLine_completedLine urlStr
    | some err => exact isCompletionLine_downloadFailedLine urlStr err
  have hran : ∀ output waitErr, (∀ p ∈ output, p.2 = true) →
      downloadWorker urlStr (.ran output waitErr)
        = output.map (fun p => chunkLine urlStr p.1) ++
            [waitLine urlStr waitErr] := by
    intro output waitErr hall
    simp only [downloadWorker, scanLoop_all_written urlStr output hall, if_true]
  have hle : (downloadWorker urlStr o).countP isCompletionLine ≤ 1 := by
    cases o with
    | stdoutPipeFailed err => simp [downloadWorker, isCompletionLine_failedToStartLine]
    | stderrPipeFailed err => simp [downloadWorker, isCompletionLine_failedToStartLine]
    | startFailed err => simp [downloadWorker, isCompletionLine_failedToStartLine]
    | ran output waitErr =>
      simp only [downloadWorker]
      split_ifs
      · rw [List.countP_append, scanLoop_no_completion]
        simp [hfinal waitErr]
      · rw [scanLoop_no_completion]
        exact Nat.zero_le _
  have hfail : ∀ pre text rest waitErr, (∀ p ∈ pre, p.2 = true) →
      downloadWorker urlStr (.ran (pre ++ (text, false) :: rest) waitErr)
        = pre.map (fun p => chunkLine urlStr p.1) := by
    intro pre text rest waitErr hall
    simp only [downloadWorker, scanLoop_failed_write urlStr pre text rest hall]
    rfl
  have hzero : o.writesSucceed = false →
      (downloadWorker urlStr o).countP isCompletionLine = 0 := by
    intro hw
    cases o with
    | stdoutPipeFailed err => exact absurd hw (by simp [ProcOutcome.writesSucceed])
    | stderrPipeFailed err => exact absurd hw (by simp [ProcOutcome.writesSucceed])
    | startFailed err => exact absurd hw (by simp [ProcOutcome.writesSucceed])
    | ran output waitErr =>
      have h2 : (scanLoop urlStr output).2 = false := by
        rw [scanLoop_snd]
        exact hw
      simp only [downloadWorker, h2]
      exact scanLoop_no_completion urlStr output
  refine ⟨fun err => ⟨rfl, rfl, rfl⟩, hran, ?_, hle, hfail, hzero⟩
  intro hw
  cases o with
  | stdoutPipeFailed err => simp [downloadWorker, isCompletionLine_failedToStartLine]
  | stderrPipeFailed err => simp [downloadWorker, isCompletionLine_failedToStartLine]
  | startFailed err => simp [downloadWorker, isCompletionLine_failedToStartLine]
  | ran output waitErr =>
    have hall : ∀ p ∈ output, p.2 = true := by
      simpa [ProcOutcome.writesSucceed] using hw
    rw [hran output waitErr hall, List.countP_append]
    have h0 : (output.map (fun p => chunkLine urlStr p.1)).countP isCompletionLine = 0 := by
      rw [List.countP_eq_zero]
      intro a ha
      obtain ⟨p, -, rfl⟩ := List.mem_map.mp ha
      simp [isCompletionLine_chunkLine]
    rw [h0]
    simp [hfinal waitErr]

theorem downloadWorker_completion_witness :
    (downloadWorker "https://youtu.be/dQw4w9WgXcQ".toList
        (.ran [("[download] 50%".toList, true)] (some "exit status 1".toList))).countP
      isCompletionLine = 1 ∧
    downloadWorker "https://youtu.be/dQw4w9WgXcQ".toList
        (.ran ([("[download] 10%".toList, true)]
          ++ ("[download] 50%".toList, false) :: [("[download] 99%".toList, true)]) none)
      = [("[download] 10%".toList, true)].map
          (fun p => chunkLine "https://youtu.be/dQw4w9WgXcQ".toList p.1) :=
  ⟨(downloadWorker_completion "https://youtu.be/dQw4w9WgXcQ".toList
      (.ran [("[download] 50%".toList, true)] (some "exit status 1".toList))).2.2.1 (by decide),
    (downloadWorker_completion "https://youtu.be/dQw4w9WgXcQ".toList
      (.ran [] none)).2.2.2.2.1 [("[download] 10%".toList, true)] "[download] 50%".toList
      [("[download] 99%".toList, true)] none (by decide)⟩

/-- C13, as stated, fails.  When the process cannot start, the worker's line is
`Failed to start download for URL <url>`: it does not include the error text
and is not the line written for a failed run with that error.  And when the
write of an output line fails, the worker of a process that would exit with
status zero writes no completion line at all. -/
theorem downloadWorker_spawn_failure_without_error_text :
    downloadWorker "https://youtu.be/dQw4w9WgXcQ".toList
        (.startFailed "exec: docker: executable file not found in $PATH".toList)
      = ["Failed to start download for URL https://youtu.be/dQw4w9WgXcQ".toList
          ++ [Char.ofNat 10]] ∧
    Contains (failedToStartLine "https://youtu.be/dQw4w9WgXcQ".toList)
        "exec: docker: executable file not found in $PATH".toList = false ∧
    failedToStartLine "https://youtu.be/dQw4w9WgXcQ".toList
      ≠ downloadFailedLine "https://youtu.be/dQw4w9WgXcQ".toList
          "exec: docker: executable file not found in $PATH".toList ∧
    (downloadWorker "https://youtu.be/dQw4w9WgXcQ".toList
        (.ran [("[download] 50%".toList, false)] none)).countP isCompletionLine = 0 := by
  refine ⟨by decide, by decide, by decide, by decide⟩

theorem flatten_set_perm (threads : List (List Str)) :
    ∀ (i : Nat) (line : Str) (rest : List Str), threads[i]? = some (line :: rest) →
      (line :: (threads.set i rest).flatten).Perm threads.flatten := by
  induction threads with
  | nil => intro i line rest h; simp at h
  | cons t ts ih =>
    intro i line rest h
    cases i with
    | zero =>
      simp only [List.getElem?_cons_zero, Option.some.injEq] at h
      subst h
      simp
    | succ i =>
      rw [List.getElem?_cons_succ] at h
      have := ih i line rest h
      rw [List.set_cons_succ, List.flatten_cons, List.flatten_cons]
      exact (List.perm_middle.symm).trans (List.Perm.append_left t this)

theorem interleave_perm (sched : List Nat) :
    ∀ threads : List (List Str), (interleave sched threads).Perm threads.flatten := by
  induction sched with
  | nil => intro threads; exact List.Perm.refl _
  | cons i sched ih =>
    intro threads
    unfold interleave
    split
    · rename_i line rest h
      exact (List.Perm.cons line (ih _)).trans (flatten_set_perm threads i line rest h)
    · exact ih threads

theorem interleave_sublist (sched : List Nat) :
    ∀ (threads : List (List Str)) (k : Nat) (t : List Str), threads[k]? = some t →
      t.Sublist (interleave sched threads) := by
  induction sched with
  | nil =>
    intro threads k t h
    exact List.sublist_flatten_of_mem (List.mem_iff_getElem?.mpr ⟨k, h⟩)
  | cons i sched ih =>
    intro threads k t h
    unfold interleave
    split
    · rename_i line rest hi
      by_cases hk : i = k
      · subst hk
        rw [hi] at h
        simp only [Option.some.injEq] at h
        subst h
        have hlt : i < threads.length := by
          by_contra hc
          rw [List.getElem?_eq_none (by omega)] at hi
          exact absurd hi (by simp)
        exact List.Sublist.cons₂ line (ih _ i rest (List.getElem?_set_self hlt))
      · exact List.Sublist.cons line (ih _ k t (by rw [List.getElem?_set_ne hk]; exact h))
    · exact ih threads k t h

theorem downloadWorker_head (urlStr : Str) (o : ProcOutcome) :
    ∀ l ∈ downloadWorker urlStr o,
      l.head? = some '[' ∨ l.head? = some 'F' ∨ l.head? = some 'D' := by
  have hscan : ∀ output : List (Str × Bool), ∀ l ∈ (scanLoop urlStr output).1,
      l.head? = some '[' := by
    intro output
    induction output with
    | nil => intro l hl; simp [scanLoop] at hl
    | cons p rest ih =>
      obtain ⟨text, written⟩ := p
      intro l hl
      cases written with
      | false => simp [scanLoop] at hl
      | true =>
        simp only [scanLoop, if_true, List.mem_cons] at hl
        rcases hl with rfl | hl
        · rfl
        · exact ih l hl
  intro l hl
  cases o with
  | stdoutPipeFailed err =>
    simp only [downloadWorker, List.mem_singleton] at hl
    subst hl
    exact Or.inr (Or.inl rfl)
  | stderrPipeFailed err =>
    simp only [downloadWorker, List.mem_singleton] at hl
    subst hl
    exact Or.inr (Or.inl rfl)
  | startFailed err =>
    simp only [downloadWorker, List.mem_singleton] at hl
    subst hl
    exact Or.inr (Or.inl rfl)
  | ran output waitErr =>
    simp only [downloadWorker] at hl
    split_ifs at hl
    · rcases List.mem_append.mp hl with hl | hl
      · exact Or.inl (hscan output l hl)
      · simp only [List.mem_singleton] at hl
        subst hl
        cases waitErr with
        | none => exact Or.inr (Or.inr rfl)
        | some err => exact Or.inr (Or.inr rfl)
    · exact Or.inl (hscan output l hl)

theorem workerLines_head (jobs : List (Str × ProcOutcome)) :
    ∀ l ∈ (jobs.map (fun j => downloadWorker j.1 j.2)).flatten,
      l.head? = some '[' ∨ l.head? = some 'F' ∨ l.head? = some 'D' := by
  intro l hl
  obtain ⟨t, ht, hlt⟩ := List.mem_flatten.mp hl
  obtain ⟨j, -, rfl⟩ := List.mem_map.mp ht
  exact downloadWorker_head j.1 j.2 l hlt

/-- C14 (as the code has it). For a non-empty list of URLs whose subprocesses
all come to an end, and for every order of the writes, the stream of
`downloadMusic` is a body followed by the single last line
`All downloads completed`.  The body holds the line
`Number of workers: n`, with `n` the number of URLs, exactly once, and the lines
of every worker, each worker's lines in their own order and nothing else; the
place of the worker-count line among the workers' lines is not fixed.  The last
line comes after every line of every worker and occurs nowhere in the body. -/
theorem downloadMusic_stream (jobs : List (Str × ProcOutcome)) (sched : List Nat)
    (hne : jobs ≠ []) :
    ∃ body, downloadMusic jobs sched = .stream (body ++ [allCompletedLine]) ∧
      body.Perm
        (workerCountLine jobs.length :: (jobs.map (fun j => downloadWorker j.1 j.2)).flatten) ∧
      (∀ j ∈ jobs, (downloadWorker j.1 j.2).Sublist body) ∧
      body.countP (fun l => decide (l = workerCountLine jobs.length)) = 1 ∧
      allCompletedLine ∉ body := by
  have hlen : ¬ jobs.length = 0 := fun e => hne (List.length_eq_zero.mp e)
  have hperm := interleave_perm sched
    ([workerCountLine jobs.length] :: jobs.map (fun j => downloadWorker j.1 j.2))
  rw [List.flatten_cons, List.singleton_append] at hperm
  refine ⟨_, by unfold downloadMusic; rw [if_neg hlen], hperm, ?_, ?_, ?_⟩
  · intro j hj
    obtain ⟨k, hk⟩ := List.mem_iff_getElem?.mp (List.mem_map_of_mem (fun j => downloadWorker j.1 j.2) hj)
    exact interleave_sublist sched _ (k + 1) _ (by rw [List.getElem?_cons_succ]; exact hk)
  · rw [hperm.countP_eq, List.countP_cons_of_pos _ _ (by simp), Nat.add_left_eq_self,
      List.countP_eq_zero]
    intro l hmem hl
    have hl2 : l = workerCountLine jobs.length := by simpa using hl
    have hN : (workerCountLine jobs.length).head? = some 'N' := rfl
    rw [← hl2] at hN
    rcases workerLines_head jobs _ hmem with h | h | h <;> rw [hN] at h <;>
      exact absurd h (by decide)
  · intro hmem
    have hA : allCompletedLine.head? = some 'A' := rfl
    rcases List.mem_cons.mp (hperm.mem_iff.mp hmem) with h | h
    · have hN : (workerCountLine jobs.length).head? = some 'N' := rfl
      rw [← h, hA] at hN
      exact absurd hN (by decide)
    · rcases workerLines_head jobs _ h with h | h | h <;> rw [hA] at h <;>
        exact absurd h (by decide)

theorem downloadMusic_stream_witness :
    ∃ body,
      downloadMusic
          [("https://youtu.be/dQw4w9WgXcQ".toList,
            .ran [("[download] 50%".toList, true)] none)] [1, 0, 1]
        = .stream (body ++ [allCompletedLine]) ∧
      body.countP (fun l => decide (l = workerCountLine 1)) = 1 ∧ allCompletedLine ∉ body := by
  obtain ⟨body, h1, -, -, h2, h3⟩ :=
    downloadMusic_stream
      [("https://youtu.be/dQw4w9WgXcQ".toList, .ran [("[download] 50%".toList, true)] none)]
      [1, 0, 1] (by simp)
  exact ⟨body, h1, h2, h3⟩

/-- C14, as stated, fails: with one URL whose process cannot start and the
worker writing before the handler does, the stream begins with the worker's
failure line and the worker-count line comes second. -/
theorem downloadMusic_worker_line_before_count :
    downloadMusic
        [("https://youtu.be/dQw4w9WgXcQ".toList, .startFailed "no such file".toList)] [1, 0]
      = .stream
          ["Failed to start download for URL https://youtu.be/dQw4w9WgXcQ".toList
              ++ [Char.ofNat 10],
            "Number of workers: 1".toList ++ [Char.ofNat 10],
            "All downloads completed".toList ++ [Char.ofNat 10]] := by
  decide

end StackMusic
